import Mathlib

/-!
Verification development for the obspy.realtime streaming accumulator
(`trunk/obspy.realtime/obspy/realtime/rttrace.py`).

The embedding translates `RtTrace.append`, `RtTrace.registerRtProcess` and
`_splitTrace` into Lean.  Timestamps, sampling rates and sample values are
modelled as rationals (exact arithmetic for the tolerance comparisons the
source performs on floats).  The static series container (`obspy.core.trace`)
and the `RtMemory` class are external collaborators that are not part of the
reviewed source tree; the few primitives of theirs that the accumulator calls
are modelled from the specification and marked as such in their doc comments.
Mutable Python objects (the per-transform `RtMemory` slots) are modelled by an
allocator-addressed store so that object identity (aliasing) is observable.
-/

/-- Numeric dtype tag of a packet's sample array.  `f4be`/`f4le` are the
big/little endian single-precision dtypes that `append` coerces to the
canonical `float32` representation. -/
inductive DType where
  | f4be
  | f4le
  | float32
  | float64
  | int32
deriving DecidableEq, Repr

/-- Modelled from the spec: the header metadata of the series container
(`obspy.core.trace.Stats`, not in the reviewed source): channel identity,
nominal sample rate, calibration factor and absolute start time. -/
structure TraceStats where
  id : String
  sampling_rate : ℚ
  calib : ℚ
  starttime : ℚ
deriving DecidableEq, Repr

/-- A data packet (an `obspy.core.trace.Trace` fragment): header, dtype tag
and sample values. -/
structure Trace where
  stats : TraceStats
  dtype : DType
  data : List ℚ
deriving DecidableEq, Repr

/-- Modelled from the spec: `end_time = start_time + (len(samples)-1)/sample_rate`
(the derived `endtime` attribute of the series container, not in src). -/
def Trace.endtime (tr : Trace) : ℚ :=
  tr.stats.starttime + ((tr.data.length : ℚ) - 1) / tr.stats.sampling_rate

/-- Modelled from the spec: the sample spacing `delta = 1/sampling_rate`
(derived attribute of the series container, not in src). -/
def Trace.dt (tr : Trace) : ℚ := 1 / tr.stats.sampling_rate

/-- Modelled from the spec: `obspy.realtime.rtmemory.RtMemory` (not in the
reviewed source) — an opaque mutable slot of per-transform carry-over state,
created fresh and empty. -/
structure RtMemory where
  contents : List ℚ
deriving DecidableEq, Repr

/-- A freshly-initialized (empty) memory instance, i.e. `RtMemory()`. -/
def RtMemory.initial : RtMemory := ⟨[]⟩

/-- Heap of `RtMemory` objects.  Python object identity is modelled by a
natural-number address; `next` is the allocation counter. -/
structure MemStore where
  next : Nat
  val : Nat → RtMemory

/-- Allocate a fresh `RtMemory()` object and return its address. -/
def MemStore.alloc (ms : MemStore) : Nat × MemStore :=
  (ms.next, ⟨ms.next + 1, fun a => if a = ms.next then RtMemory.initial else ms.val a⟩)

/-- Python's `str.lower()`, applied character-wise (evaluates by structural
recursion, unlike `String.toLower`). -/
def strToLower (s : String) : String := ⟨s.data.map Char.toLower⟩

/-- Keyword options forwarded verbatim to a processing function. -/
abbrev Options := List (String × ℚ)

/-- The registered process of an entry: either a direct callable (stateless,
array-in/array-out) or the lower-cased name of a predefined function. -/
inductive ProcKind where
  | callable (f : List ℚ → Options → Except String (List ℚ))
  | named (s : String)

/-- One entry of the processing registry: the tuple
`(process_name, options, rtmemory_list)` stored by `registerRtProcess`.
`rtmemory_list` holds the addresses of the owned `RtMemory` objects
(`none` mirrors Python `None`). -/
structure ProcEntry where
  kind : ProcKind
  options : Options
  rtmemory_list : Option (List Nat)

/-- Semantics of the predefined processing functions of
`obspy.realtime.signal` (external collaborators, not in the reviewed source):
given the lower-cased name, the packet data, the values of the entry's memory
slots and the options, return the new data and the new memory values, or fail.
The accumulator is parameterized over this family. -/
abbrev FuncSem :=
  String → List ℚ → List RtMemory → Options → Except String (List ℚ × List RtMemory)

/-- The fixed registry of predefined real-time processing functions with the
number of `RtMemory` objects each declares
(`REALTIME_PROCESS_FUNCTIONS` in the source; the function objects themselves
live in `obspy.realtime.signal` and are abstracted by `FuncSem`). -/
def REALTIME_PROCESS_FUNCTIONS : List (String × Nat) :=
  [("scale", 0), ("integrate", 1), ("differentiate", 1),
   ("boxcar", 1), ("tauc", 2), ("mwpintegral", 1)]

/-- The state of an `RtTrace` accumulator: the committed series buffer
(`data` plus header), the retention bound, the seeded flag, the processing
registry, the memory heap and the provenance records. -/
structure RtTrace where
  stats : TraceStats
  dtype : DType
  data : List ℚ
  max_length : Option ℚ
  have_appended_data : Bool
  processing : List ProcEntry
  mem : MemStore
  processing_info : List String

/-- Modelled from the spec: derived end time of the buffer. -/
def RtTrace.endtime (self : RtTrace) : ℚ :=
  self.stats.starttime + ((self.data.length : ℚ) - 1) / self.stats.sampling_rate

/-- `RtTrace.getId`. -/
def RtTrace.getId (self : RtTrace) : String := self.stats.id

/-- `RtTrace.__init__`: rejects a non-positive `max_length`, otherwise starts
with an empty buffer (all data must be added through `append`). -/
def RtTrace.initialize (max_length : Option ℚ) : Except String RtTrace :=
  match max_length with
  | some m =>
      if m ≤ 0 then .error "Input max_length out of bounds"
      else .ok ⟨⟨"", 1, 1, 0⟩, DType.float64, [], some m, false, [], ⟨0, fun _ => RtMemory.initial⟩, []⟩
  | none => .ok ⟨⟨"", 1, 1, 0⟩, DType.float64, [], none, false, [], ⟨0, fun _ => RtMemory.initial⟩, []⟩

/-- The errors `append` can raise.  In the source they are all `TypeError`s
distinguished by their message; the constructors carry the message payloads
verbatim (mismatching values; for gap/overlap: the size in samples, the two
boundary timestamps, `diff` and `dt`). -/
inductive AppendError where
  | idMismatch (a b : String)
  | samplingRateMismatch (a b : ℚ)
  | calibMismatch (a b : ℚ)
  | dtypeMismatch (a b : DType)
  | overlap (size tEndSelf tStartTrace diff dt : ℚ)
  | gap (size tEndSelf tStartTrace diff dt : ℚ)
  | transformFailure (msg : String)
deriving DecidableEq, Repr

/-- Whether an `AppendError` is a strict-mode continuity (gap/overlap) error. -/
def AppendError.isContinuityError : AppendError → Bool
  | .overlap _ _ _ _ _ => true
  | .gap _ _ _ _ _ => true
  | _ => false

/-- Whether an `AppendError` is a header-mismatch error. -/
def AppendError.isHeaderMismatch : AppendError → Bool
  | .idMismatch _ _ => true
  | .samplingRateMismatch _ _ => true
  | .calibMismatch _ _ => true
  | .dtypeMismatch _ _ => true
  | _ => false

/-- Lines 188-189 of the source: a `>f4`/`<f4` packet's data array is replaced
by its `float32` coercion (the sample values are unchanged, only the dtype
tag). -/
def coerceF4 (tr : Trace) : Trace :=
  if tr.dtype = DType.f4be ∨ tr.dtype = DType.f4le then
    { tr with dtype := DType.float32 }
  else tr

/-- Lines 192-211 of the source: once the buffer is seeded, packet id,
sampling rate, calibration factor and dtype must exactly match the buffer's;
the first mismatch found is reported. -/
def sanityChecks (self : RtTrace) (trace : Trace) : Option AppendError :=
  if self.have_appended_data = false then none
  else if self.getId ≠ trace.stats.id then
    some (.idMismatch self.getId trace.stats.id)
  else if self.stats.sampling_rate ≠ trace.stats.sampling_rate then
    some (.samplingRateMismatch self.stats.sampling_rate trace.stats.sampling_rate)
  else if self.stats.calib ≠ trace.stats.calib then
    some (.calibMismatch self.stats.calib trace.stats.calib)
  else if self.dtype ≠ trace.dtype then
    some (.dtypeMismatch self.dtype trace.dtype)
  else none

/-- Line 226 of the source: `diff = trace.stats.starttime - self.stats.endtime`. -/
def contDiff (self : RtTrace) (trace : Trace) : ℚ :=
  trace.stats.starttime - self.endtime

/-- Line 227 of the source: `delta = diff * sr - 1.0` (the deviation, in
samples, from perfect contiguity). -/
def contDelta (self : RtTrace) (trace : Trace) : ℚ :=
  contDiff self trace * self.stats.sampling_rate - 1

/-- Lines 215-261 of the source: continuity classification.  Returns the
`gap_or_overlap` flag together with the buffer start time after the block
(the clock-drift correction `starttime + diff - 1/sr` is applied exactly in
the contiguous branch).  The source writes the overlap and the gap test as two
separate `if`s accumulating into `gap_or_overlap`; since `delta < -0.1` and
`delta > 0.1` are mutually exclusive this chained form is equivalent. -/
def classifyContinuity (self : RtTrace) (trace : Trace) (gap_overlap_check : Bool) :
    Except AppendError (Bool × ℚ) :=
  if self.have_appended_data = false then .ok (false, self.stats.starttime)
  else
    let sr := self.stats.sampling_rate
    let diff := contDiff self trace
    let delta := contDelta self trace
    if delta < -(1/10) ∧ gap_overlap_check = true then
      .error (.overlap (-delta) self.endtime trace.stats.starttime diff (1/sr))
    else if delta > 1/10 ∧ gap_overlap_check = true then
      .error (.gap delta self.endtime trace.stats.starttime diff (1/sr))
    else if delta < -(1/10) ∨ delta > 1/10 then
      .ok (true, self.stats.starttime)
    else
      .ok (false, self.stats.starttime + diff - 1/sr)

/-- Lines 269-270 of the source: `rtmemory_list[n] = RtMemory()` for every
index — each slot is replaced by a freshly allocated memory object. -/
def resetMemoryList : List Nat → MemStore → List Nat × MemStore
  | [], ms => ([], ms)
  | _ :: rest, ms =>
      let p := ms.alloc
      let q := resetMemoryList rest p.2
      (p.1 :: q.1, q.2)

/-- Write the returned memory values back to the slot addresses (the Python
functions mutate the `RtMemory` objects they were handed in place). -/
def writeMemory : MemStore → List Nat → List RtMemory → MemStore
  | ms, [], _ => ms
  | ms, _ :: _, [] => ms
  | ms, a :: as, v :: vs => writeMemory ⟨ms.next, fun x => if x = a then v else ms.val x⟩ as vs

/-- Lines 268-270 of the source: if `gap_or_overlap` and the entry owns a
memory list, every slot is replaced with a fresh `RtMemory()` (the list object
stored in the registry entry is mutated, so the reset persists). -/
def resetEntry (gap_or_overlap : Bool) (e : ProcEntry) (ms : MemStore) : ProcEntry × MemStore :=
  if gap_or_overlap = true then
    match e.rtmemory_list with
    | none => (e, ms)
    | some addrs =>
        let p := resetMemoryList addrs ms
        ({ e with rtmemory_list := some p.1 }, p.2)
  else (e, ms)

/-- Lines 273-279 of the source: a direct callable receives only the data and
the options; a predefined function is looked up by lower-cased name and
receives the data, the entry's memory objects and the options. -/
def invokeEntry (fs : FuncSem) (e : ProcEntry) (ms : MemStore) (d : List ℚ) :
    Except String (MemStore × List ℚ) :=
  match e.kind with
  | .callable f =>
      match f d e.options with
      | .error msg => .error msg
      | .ok d2 => .ok (ms, d2)
  | .named s =>
      let addrs := e.rtmemory_list.getD []
      match fs (strToLower s) d (addrs.map ms.val) e.options with
      | .error msg => .error msg
      | .ok (d2, vals) => .ok (writeMemory ms addrs vals, d2)

/-- Result of running the processing pipeline: the (possibly reset) registry
entries, the memory heap, the packet data after the last completed stage, and
the error of the failing stage if one failed (mutations made before the
failure persist, as in Python). -/
structure PipelineOut where
  entries : List ProcEntry
  mem : MemStore
  data : List ℚ
  failure : Option String

/-- Lines 264-279 of the source: apply every registered process in
registration order, resetting an entry's memory slots first when
`gap_or_overlap` is set; each stage's output replaces the packet data for the
next stage. -/
def applyProcessing (fs : FuncSem) (go : Bool) :
    List ProcEntry → MemStore → List ℚ → PipelineOut
  | [], ms, d => ⟨[], ms, d, none⟩
  | e :: rest, ms, d =>
      let p := resetEntry go e ms
      match invokeEntry fs p.1 p.2 d with
      | .error msg => ⟨p.1 :: rest, p.2, d, some msg⟩
      | .ok (ms2, d2) =>
          let q := applyProcessing fs go rest ms2 d2
          ⟨p.1 :: q.entries, q.mem, q.data, q.failure⟩

/-- Modelled from the spec: `Trace.__add__` with `method=0`,
`interpolation_samples=0`, `fill_value='latest'` (obspy.core, not in src) —
"the transformed packet is concatenated onto the buffer ... this concatenation
deliberately performs no interpolation or fill". -/
def traceAdd (selfData newData : List ℚ) : List ℚ := selfData ++ newData

/-- Modelled from the spec: `Trace._ltrim(t, pad=False, nearest_sample=True)`
(obspy.core, not in src) — drop the samples before the nearest sample to `t`
and advance `starttime` by the dropped duration; never pads. -/
def ltrimTo (data : List ℚ) (starttime sr t : ℚ) : List ℚ × ℚ :=
  let k : ℤ := round ((t - starttime) * sr)
  let n : Nat := k.toNat
  (data.drop n, starttime + (n : ℚ) / sr)

/-- Lines 303-317 of the source: if `max_length` is configured and the merged
buffer exceeds `int(max_length * sampling_rate + 0.5)` samples, left-trim to
the time of the first retained sample. -/
def trimToMaxLength (self : RtTrace) : RtTrace :=
  match self.max_length with
  | none => self
  | some m =>
      let max_samples : ℤ := ⌊m * self.stats.sampling_rate + 1/2⌋
      if (self.data.length : ℤ) > max_samples then
        let t := self.stats.starttime +
          ((self.data.length : ℚ) - (max_samples : ℚ)) / self.stats.sampling_rate
        let p := ltrimTo self.data self.stats.starttime self.stats.sampling_rate t
        { self with data := p.1, stats := { self.stats with starttime := p.2 } }
      else self

/-- The outcome of one `append` call.  `self` is the accumulator state after
the call (also when an error was raised: mutations made before the raise
persist, as in Python).  `packet` is the caller's trace object after the call
(it is mutated in place).  `gap_or_overlap` and `starttimeAfterClassify`
record the classification flag and the buffer start time right after the
continuity block, for stating properties of the intermediate stages. -/
structure AppendOut where
  result : Except AppendError Trace
  self : RtTrace
  packet : Trace
  gap_or_overlap : Bool
  starttimeAfterClassify : ℚ

/-- Lines 162-322 of the source: `RtTrace.append`.  Coerce the dtype, run the
sanity checks, classify continuity (raising in strict mode), run the
processing pipeline, then either seed the buffer from the packet (first
append) or merge and left-trim; the (mutated) packet is returned. -/
def RtTrace.append (self : RtTrace) (trace : Trace) (gap_overlap_check : Bool)
    (verbose : Bool) (fs : FuncSem) : AppendOut :=
  let _ := verbose
  let trace1 := coerceF4 trace
  match sanityChecks self trace1 with
  | some e => ⟨.error e, self, trace1, false, self.stats.starttime⟩
  | none =>
    match classifyContinuity self trace1 gap_overlap_check with
    | .error e => ⟨.error e, self, trace1, false, self.stats.starttime⟩
    | .ok (go, st1) =>
        let self1 := { self with stats := { self.stats with starttime := st1 } }
        let pipe := applyProcessing fs go self1.processing self1.mem trace1.data
        let trace2 := { trace1 with data := pipe.data }
        let self2 := { self1 with processing := pipe.entries, mem := pipe.mem }
        match pipe.failure with
        | some msg => ⟨.error (.transformFailure msg), self2, trace2, go, st1⟩
        | none =>
            if self2.have_appended_data = false then
              let self3 := { self2 with
                data := trace2.data
                dtype := trace2.dtype
                stats := trace2.stats
                have_appended_data := true }
              ⟨.ok trace2, self3, trace2, go, st1⟩
            else
              let summed := traceAdd self2.data trace2.data
              let self3 := trimToMaxLength { self2 with data := summed }
              let self4 := { self3 with have_appended_data := true }
              ⟨.ok trace2, self4, trace2, go, st1⟩

/-- The argument of `registerRtProcess`: a direct callable or a name string. -/
inductive ProcessArg where
  | callable (f : List ℚ → Options → Except String (List ℚ))
  | name (s : String)

/-- Exact lookup in `REALTIME_PROCESS_FUNCTIONS`. -/
def lookupRPF (s : String) : Option Nat :=
  (REALTIME_PROCESS_FUNCTIONS.find? (fun p => p.1 = s)).map (·.2)

/-- Lines 364-372 of the source: fall back to the first registered name that
starts with the given string. -/
def findPrefixRPF (s : String) : Option String :=
  (REALTIME_PROCESS_FUNCTIONS.find? (fun p => s.isPrefixOf p.1)).map (·.1)

/-- Line 359 of the source, `rtmemory_list = [RtMemory()] * num` when
`num != 0`: Python evaluates `RtMemory()` once and replicates the reference,
so a single object is allocated and the slot list holds `num` copies of its
address. -/
def mkNamedEntry (self : RtTrace) (process_name : String) (options : Options) (num : Nat) :
    RtTrace × ProcEntry :=
  if num = 0 then (self, ⟨.named process_name, options, none⟩)
  else
    let p := self.mem.alloc
    ({ self with mem := p.2 }, ⟨.named process_name, options, some (List.replicate num p.1)⟩)

/-- Lines 377-382 of the source: append the entry to the registry and a
provenance record to the processing history. -/
def pushEntry (self : RtTrace) (e : ProcEntry) (pname : String) : RtTrace :=
  { self with
    processing := self.processing ++ [e]
    processing_info := self.processing_info ++ [String.append "realtime_process:" pname] }

/-- Lines 324-384 of the source: `RtTrace.registerRtProcess`.  A callable is
registered directly with no memory; a known (lower-cased) name allocates the
declared number of memory slots; otherwise the first predefined name having
the given string as a prefix is used; if nothing matches, registration fails.
Returns the new length of the processing list. -/
def RtTrace.registerRtProcess (self : RtTrace) (process : ProcessArg) (options : Options) :
    Except String (RtTrace × Nat) :=
  match process with
  | .callable f =>
      let entry : ProcEntry := ⟨.callable f, options, none⟩
      .ok (pushEntry self entry "callable", self.processing.length + 1)
  | .name s =>
      let process_name := strToLower s
      match lookupRPF process_name with
      | some num =>
          let p := mkNamedEntry self process_name options num
          .ok (pushEntry p.1 p.2 process_name, self.processing.length + 1)
      | none =>
          match findPrefixRPF process_name with
          | some key =>
              let num := (lookupRPF key).getD 0
              let p := mkNamedEntry self key options num
              .ok (pushEntry p.1 p.2 key, self.processing.length + 1)
          | none => .error "Cannot register process"

/-- Modelled from the spec: `Trace.slice(t1, t2)` (obspy.core, not in src) —
the sub-series between the nearest samples to `t1` and `t2`, endpoints
inclusive, clamped to the available data, never padding. -/
def traceSlice (tr : Trace) (t1 t2 : ℚ) : Trace :=
  let sr := tr.stats.sampling_rate
  let i1 : ℤ := max 0 (round ((t1 - tr.stats.starttime) * sr))
  let i2 : ℤ := min ((tr.data.length : ℤ) - 1) (round ((t2 - tr.stats.starttime) * sr))
  { tr with
    data := (tr.data.drop i1.toNat).take (i2 - i1 + 1).toNat
    stats := { tr.stats with starttime := tr.stats.starttime + (i1 : ℚ) / sr } }

/-- Loop of `_splitTrace` (lines 428-434): slice `[tstart, tend]`, then step
both bounds by `packet_length + 1` samples. -/
def splitLoop (tr : Trace) (packet_length : ℤ) : Nat → ℚ → List Trace
  | 0, _ => []
  | Nat.succ k, tstart =>
      let tend := tstart + tr.dt * (packet_length : ℚ)
      traceSlice tr tstart tend :: splitLoop tr packet_length k (tend + tr.dt)

/-- Lines 387-435 of the source: `_splitTrace`.  `packet_length` is
`total//num` when `num` does not divide `total`, else `total//num - 1`
(computed in ℤ, as Python's `-1` would be). -/
def splitTrace (tr : Trace) (num : Nat) : List Trace :=
  let total_length := tr.data.length
  let rest_length := total_length % num
  let packet_length : ℤ :=
    if rest_length ≠ 0 then (total_length / num : ℕ) else (total_length / num : ℕ) - 1
  splitLoop tr packet_length num tr.stats.starttime

/-- Sequentially append a list of packets, stopping at the first error
(the state reached so far is discarded on error, only the error is
reported). -/
def appendAll (fs : FuncSem) (strict verbose : Bool) :
    RtTrace → List Trace → Except AppendError RtTrace
  | st, [] => .ok st
  | st, p :: rest =>
      let r := st.append p strict verbose fs
      match r.result with
      | .error e => .error e
      | .ok _ => appendAll fs strict verbose r.self rest

/-! ### Basic lemmas about the embedding -/

theorem coerceF4_stats (tr : Trace) : (coerceF4 tr).stats = tr.stats := by
  unfold coerceF4; split <;> rfl

theorem coerceF4_data (tr : Trace) : (coerceF4 tr).data = tr.data := by
  unfold coerceF4; split <;> rfl

theorem contDiff_coerceF4 (self : RtTrace) (tr : Trace) :
    contDiff self (coerceF4 tr) = contDiff self tr := by
  unfold contDiff; rw [coerceF4_stats]

theorem contDelta_coerceF4 (self : RtTrace) (tr : Trace) :
    contDelta self (coerceF4 tr) = contDelta self tr := by
  unfold contDelta; rw [contDiff_coerceF4]

theorem classifyContinuity_unseeded (self : RtTrace) (tr : Trace) (strict : Bool)
    (h : self.have_appended_data = false) :
    classifyContinuity self tr strict = .ok (false, self.stats.starttime) := by
  unfold classifyContinuity; simp [h]

theorem classifyContinuity_overlap_strict (self : RtTrace) (tr : Trace)
    (hseed : self.have_appended_data = true) (h : contDelta self tr < -(1/10)) :
    classifyContinuity self tr true =
      .error (.overlap (-(contDelta self tr)) self.endtime tr.stats.starttime
        (contDiff self tr) (1 / self.stats.sampling_rate)) := by
  simp only [classifyContinuity]
  split_ifs with h0 h1 h2 h3
  · exact absurd (hseed.symm.trans h0) (by decide)
  · rfl
  · exfalso; have h2' := h2.1; linarith
  · exact absurd ⟨h, trivial⟩ h1
  · exact absurd ⟨h, trivial⟩ h1

theorem classifyContinuity_gap_strict (self : RtTrace) (tr : Trace)
    (hseed : self.have_appended_data = true) (h : 1/10 < contDelta self tr) :
    classifyContinuity self tr true =
      .error (.gap (contDelta self tr) self.endtime tr.stats.starttime
        (contDiff self tr) (1 / self.stats.sampling_rate)) := by
  simp only [classifyContinuity]
  split_ifs with h0 h1 h2 h3
  · exact absurd (hseed.symm.trans h0) (by decide)
  · exfalso; have h1' := h1.1; linarith
  · rfl
  · exact absurd ⟨h, trivial⟩ h2
  · exact absurd ⟨h, trivial⟩ h2

theorem classifyContinuity_discont_loose (self : RtTrace) (tr : Trace)
    (hseed : self.have_appended_data = true)
    (h : contDelta self tr < -(1/10) ∨ 1/10 < contDelta self tr) :
    classifyContinuity self tr false = .ok (true, self.stats.starttime) := by
  simp only [classifyContinuity]
  split_ifs with h0 h1 h2
  · exact absurd (hseed.symm.trans h0) (by decide)
  · exact h1.2
  · exact h2.2
  · rfl

theorem classifyContinuity_contiguous (self : RtTrace) (tr : Trace) (strict : Bool)
    (h1 : -(1/10) ≤ contDelta self tr) (h2 : contDelta self tr ≤ 1/10) :
    classifyContinuity self tr strict =
      if self.have_appended_data = false then .ok (false, self.stats.starttime)
      else .ok (false, self.stats.starttime + contDiff self tr - 1 / self.stats.sampling_rate) := by
  have hA : ¬ contDelta self tr < -(1/10) := not_lt.2 h1
  have hB : ¬ (1/10 : ℚ) < contDelta self tr := not_lt.2 h2
  simp only [classifyContinuity]
  split_ifs with h0 hx hy hz
  · rfl
  · exact absurd hx.1 hA
  · exact absurd hy.1 hB
  · rcases hz with hz | hz
    · exact absurd hz hA
    · exact absurd hz hB
  · rfl

/-- Spine lemma: `append` when a sanity check fails. -/
theorem append_of_sanityFail (self : RtTrace) (tr : Trace) (strict verbose : Bool)
    (fs : FuncSem) (e : AppendError) (h : sanityChecks self (coerceF4 tr) = some e) :
    self.append tr strict verbose fs =
      ⟨.error e, self, coerceF4 tr, false, self.stats.starttime⟩ := by
  simp only [RtTrace.append, h]

/-- Spine lemma: `append` when the continuity classification raises. -/
theorem append_of_classifyFail (self : RtTrace) (tr : Trace) (strict verbose : Bool)
    (fs : FuncSem) (e : AppendError)
    (hchk : sanityChecks self (coerceF4 tr) = none)
    (hcl : classifyContinuity self (coerceF4 tr) strict = .error e) :
    self.append tr strict verbose fs =
      ⟨.error e, self, coerceF4 tr, false, self.stats.starttime⟩ := by
  simp only [RtTrace.append, hchk, hcl]

/-- Spine lemma: `append` once the continuity classification succeeded. -/
theorem append_of_classified (self : RtTrace) (tr : Trace) (strict verbose : Bool)
    (fs : FuncSem) (go : Bool) (st1 : ℚ)
    (hchk : sanityChecks self (coerceF4 tr) = none)
    (hcl : classifyContinuity self (coerceF4 tr) strict = .ok (go, st1)) :
    self.append tr strict verbose fs =
      (let pipe := applyProcessing fs go self.processing self.mem (coerceF4 tr).data
       let trace2 : Trace := { coerceF4 tr with data := pipe.data }
       let self2 : RtTrace := { self with
         stats := { self.stats with starttime := st1 }
         processing := pipe.entries
         mem := pipe.mem }
       match pipe.failure with
       | some msg => ⟨.error (.transformFailure msg), self2, trace2, go, st1⟩
       | none =>
           if self2.have_appended_data = false then
             ⟨.ok trace2, { self2 with
                data := trace2.data
                dtype := trace2.dtype
                stats := trace2.stats
                have_appended_data := true }, trace2, go, st1⟩
           else
             ⟨.ok trace2,
              { trimToMaxLength { self2 with data := traceAdd self2.data trace2.data } with
                have_appended_data := true }, trace2, go, st1⟩) := by
  simp only [RtTrace.append, hchk, hcl]

theorem applyProcessing_nil (fs : FuncSem) (go : Bool) (ms : MemStore) (d : List ℚ) :
    applyProcessing fs go [] ms d = ⟨[], ms, d, none⟩ := rfl

/-- Projections of `append` on the classified (no sanity/continuity error)
path: the ghost fields, the final packet, and the final state in each of the
three terminal cases (transform failure, first append, merge). -/
theorem append_classified_facts (self : RtTrace) (tr : Trace) (strict verbose : Bool)
    (fs : FuncSem) (go : Bool) (st1 : ℚ)
    (hchk : sanityChecks self (coerceF4 tr) = none)
    (hcl : classifyContinuity self (coerceF4 tr) strict = .ok (go, st1)) :
    (self.append tr strict verbose fs).gap_or_overlap = go ∧
    (self.append tr strict verbose fs).starttimeAfterClassify = st1 ∧
    (self.append tr strict verbose fs).packet =
      { coerceF4 tr with
        data := (applyProcessing fs go self.processing self.mem (coerceF4 tr).data).data } ∧
    (∀ msg,
      (applyProcessing fs go self.processing self.mem (coerceF4 tr).data).failure = some msg →
      (self.append tr strict verbose fs).result = .error (.transformFailure msg) ∧
      (self.append tr strict verbose fs).self =
        { self with
          stats := { self.stats with starttime := st1 }
          processing := (applyProcessing fs go self.processing self.mem (coerceF4 tr).data).entries
          mem := (applyProcessing fs go self.processing self.mem (coerceF4 tr).data).mem }) ∧
    ((applyProcessing fs go self.processing self.mem (coerceF4 tr).data).failure = none →
      (self.append tr strict verbose fs).result =
        .ok ((self.append tr strict verbose fs).packet) ∧
      (self.have_appended_data = false →
        (self.append tr strict verbose fs).self =
          { self with
            data := (applyProcessing fs go self.processing self.mem (coerceF4 tr).data).data
            dtype := (coerceF4 tr).dtype
            stats := (coerceF4 tr).stats
            processing := (applyProcessing fs go self.processing self.mem (coerceF4 tr).data).entries
            mem := (applyProcessing fs go self.processing self.mem (coerceF4 tr).data).mem
            have_appended_data := true }) ∧
      (self.have_appended_data = true →
        (self.append tr strict verbose fs).self =
          { trimToMaxLength { self with
              stats := { self.stats with starttime := st1 }
              processing :=
                (applyProcessing fs go self.processing self.mem (coerceF4 tr).data).entries
              mem := (applyProcessing fs go self.processing self.mem (coerceF4 tr).data).mem
              data := traceAdd self.data
                (applyProcessing fs go self.processing self.mem (coerceF4 tr).data).data } with
            have_appended_data := true })) := by
  have heq := append_of_classified self tr strict verbose fs go st1 hchk hcl
  refine ⟨?_, ?_, ?_, ?_, ?_⟩
  · rw [heq]
    cases hf : (applyProcessing fs go self.processing self.mem (coerceF4 tr).data).failure with
    | some msg => simp [hf]
    | none =>
        simp only [hf]
        split <;> rfl
  · rw [heq]
    cases hf : (applyProcessing fs go self.processing self.mem (coerceF4 tr).data).failure with
    | some msg => simp [hf]
    | none =>
        simp only [hf]
        split <;> rfl
  · rw [heq]
    cases hf : (applyProcessing fs go self.processing self.mem (coerceF4 tr).data).failure with
    | some msg => simp [hf]
    | none =>
        simp only [hf]
        split <;> rfl
  · intro msg hf
    rw [heq]
    simp [hf]
  · intro hf
    refine ⟨?_, ?_, ?_⟩
    · rw [heq]
      simp only [hf]
      split <;> rfl
    · intro hun
      rw [heq]
      simp only [hf, hun]
      rfl
    · intro hsd
      rw [heq]
      simp only [hf, hsd]
      rfl

/-! ### Concrete fixtures shared by the witnesses -/

/-- Identity transform semantics (every predefined function echoes its
input). -/
def fsIdentity : FuncSem := fun _ d m _ => .ok (d, m)

/-- Transform semantics in which every predefined function fails. -/
def fsFailing : FuncSem := fun _ _ _ _ => .error "boom"

/-- An empty memory heap. -/
def emptyStore : MemStore := ⟨0, fun _ => RtMemory.initial⟩

/-- A seeded accumulator: 3 samples at 1 Hz starting at t = 0
(so its end time is t = 2), no retention bound, no transforms. -/
def wSeeded : RtTrace :=
  ⟨⟨"BW.RJOB..EHZ", 1, 1, 0⟩, DType.float64, [1, 2, 3], none, true, [], emptyStore, []⟩

/-- A matching two-sample packet starting at time `t`. -/
def wPacket (t : ℚ) : Trace := ⟨⟨"BW.RJOB..EHZ", 1, 1, t⟩, DType.float64, [4, 5]⟩

/-- A fresh, unseeded accumulator. -/
def wFresh : RtTrace :=
  ⟨⟨"", 1, 1, 0⟩, DType.float64, [], none, false, [], emptyStore, []⟩

/-! ### C1 -/

/-- C1: on a seeded accumulator whose header checks pass, with
`diff = packet.start_time - buffer.end_time` and `delta = diff*sr - 1.0`:
if `delta < -0.1`, strict mode raises an overlap error reporting the overlap
size `-delta` in samples and the two boundary timestamps, and non-strict mode
proceeds with the discontinuity flag set (no continuity error); if
`delta > 0.1` the same holds with a gap error; and for `delta` in the closed
interval `[-0.1, 0.1]` no continuity error is raised even in strict mode
(and with no transforms registered the call succeeds outright). -/
theorem C1_continuity_classification
    (self : RtTrace) (tr : Trace) (fs : FuncSem) (verbose : Bool)
    (hseed : self.have_appended_data = true)
    (hchk : sanityChecks self (coerceF4 tr) = none) :
    (contDelta self tr < -(1/10) →
      (self.append tr true verbose fs).result =
        .error (.overlap (-(contDelta self tr)) self.endtime tr.stats.starttime
          (contDiff self tr) (1 / self.stats.sampling_rate)) ∧
      (self.append tr false verbose fs).gap_or_overlap = true ∧
      (∀ e, (self.append tr false verbose fs).result = .error e →
        e.isContinuityError = false)) ∧
    (1/10 < contDelta self tr →
      (self.append tr true verbose fs).result =
        .error (.gap (contDelta self tr) self.endtime tr.stats.starttime
          (contDiff self tr) (1 / self.stats.sampling_rate)) ∧
      (self.append tr false verbose fs).gap_or_overlap = true ∧
      (∀ e, (self.append tr false verbose fs).result = .error e →
        e.isContinuityError = false)) ∧
    (-(1/10) ≤ contDelta self tr → contDelta self tr ≤ 1/10 →
      ∀ strict : Bool,
        (self.append tr strict verbose fs).gap_or_overlap = false ∧
        (∀ e, (self.append tr strict verbose fs).result = .error e →
          e.isContinuityError = false) ∧
        (self.processing = [] →
          (self.append tr strict verbose fs).result = .ok (coerceF4 tr))) := by
  have hd := contDelta_coerceF4 self tr
  have hdf := contDiff_coerceF4 self tr
  have hst := coerceF4_stats tr
  constructor
  · intro hlt
    have hcl := classifyContinuity_overlap_strict self (coerceF4 tr) hseed (by rw [hd]; exact hlt)
    rw [hd, hdf, hst] at hcl
    have hcl2 := classifyContinuity_discont_loose self (coerceF4 tr) hseed (Or.inl (by rw [hd]; exact hlt))
    have hfacts := append_classified_facts self tr false verbose fs true
      self.stats.starttime hchk hcl2
    refine ⟨?_, hfacts.1, ?_⟩
    · rw [append_of_classifyFail self tr true verbose fs _ hchk hcl]
    · intro e he
      cases hf : (applyProcessing fs true self.processing self.mem (coerceF4 tr).data).failure with
      | some msg =>
          have := (hfacts.2.2.2.1 msg hf).1
          rw [this] at he
          cases he
          rfl
      | none =>
          have := (hfacts.2.2.2.2 hf).1
          rw [this] at he
          cases he
  constructor
  · intro hgt
    have hcl := classifyContinuity_gap_strict self (coerceF4 tr) hseed (by rw [hd]; exact hgt)
    rw [hd, hdf, hst] at hcl
    have hcl2 := classifyContinuity_discont_loose self (coerceF4 tr) hseed (Or.inr (by rw [hd]; exact hgt))
    have hfacts := append_classified_facts self tr false verbose fs true
      self.stats.starttime hchk hcl2
    refine ⟨?_, hfacts.1, ?_⟩
    · rw [append_of_classifyFail self tr true verbose fs _ hchk hcl]
    · intro e he
      cases hf : (applyProcessing fs true self.processing self.mem (coerceF4 tr).data).failure with
      | some msg =>
          have := (hfacts.2.2.2.1 msg hf).1
          rw [this] at he
          cases he
          rfl
      | none =>
          have := (hfacts.2.2.2.2 hf).1
          rw [this] at he
          cases he
  · intro hge hle strict
    have hcl := classifyContinuity_contiguous self (coerceF4 tr) strict
      (by rw [hd]; exact hge) (by rw [hd]; exact hle)
    rw [if_neg (by simp [hseed])] at hcl
    rw [hdf] at hcl
    have hfacts := append_classified_facts self tr strict verbose fs false
      (self.stats.starttime + contDiff self tr - 1 / self.stats.sampling_rate) hchk hcl
    refine ⟨hfacts.1, ?_, ?_⟩
    · intro e he
      cases hf : (applyProcessing fs false self.processing self.mem (coerceF4 tr).data).failure with
      | some msg =>
          have := (hfacts.2.2.2.1 msg hf).1
          rw [this] at he
          cases he
          rfl
      | none =>
          have := (hfacts.2.2.2.2 hf).1
          rw [this] at he
          cases he
    · intro hp
      have hf : (applyProcessing fs false self.processing self.mem (coerceF4 tr).data).failure
          = none := by rw [hp, applyProcessing_nil]
      have hres := (hfacts.2.2.2.2 hf).1
      have hpk := hfacts.2.2.1
      rw [hres, hpk, hp, applyProcessing_nil]

/-- Witness for C1: on the concrete seeded buffer (end time 2) and a packet
starting at 2.8 (delta = -0.2), strict mode raises the overlap error with
size 0.2 samples and boundary timestamps 2 and 2.8. -/
theorem C1_continuity_classification_witness :
    wSeeded.have_appended_data = true ∧
    sanityChecks wSeeded (coerceF4 (wPacket (14/5))) = none ∧
    contDelta wSeeded (wPacket (14/5)) < -(1/10) ∧
    (wSeeded.append (wPacket (14/5)) true false fsIdentity).result =
      .error (.overlap (1/5) 2 (14/5) (4/5) 1) := by
  have harith : contDelta wSeeded (wPacket (14/5)) = -(1/5) := by
    norm_num [contDelta, contDiff, wSeeded, wPacket, RtTrace.endtime]
  have hchk : sanityChecks wSeeded (coerceF4 (wPacket (14/5))) = none := by
    simp [sanityChecks, wSeeded, wPacket, coerceF4, RtTrace.getId]
  refine ⟨rfl, hchk, by rw [harith]; norm_num, ?_⟩
  have h := (C1_continuity_classification wSeeded (wPacket (14/5)) fsIdentity false rfl hchk).1
    (by rw [harith]; norm_num)
  rw [h.1, harith]
  norm_num [contDiff, wSeeded, wPacket, RtTrace.endtime]

theorem trimToMaxLength_of_none (s : RtTrace) (h : s.max_length = none) :
    trimToMaxLength s = s := by
  unfold trimToMaxLength
  rw [h]

/-! ### C4 -/

/-- C4: on an append onto a seeded buffer classified as contiguous (delta
within the 0.1-sample tolerance) the classification stage shifts the buffer
start time by exactly `diff - 1/sample_rate`; no such shift is applied when
the append is classified as a gap or overlap, nor when the buffer is
unseeded; and when no retention bound is configured, the shifted value is the
final buffer start time of a successful seeded append. -/
theorem C4_drift_correction
    (self : RtTrace) (tr : Trace) (strict verbose : Bool) (fs : FuncSem)
    (hchk : sanityChecks self (coerceF4 tr) = none) :
    (self.have_appended_data = true →
      -(1/10) ≤ contDelta self tr → contDelta self tr ≤ 1/10 →
      (self.append tr strict verbose fs).starttimeAfterClassify =
        self.stats.starttime + contDiff self tr - 1 / self.stats.sampling_rate) ∧
    (self.have_appended_data = true →
      (contDelta self tr < -(1/10) ∨ 1/10 < contDelta self tr) →
      (self.append tr strict verbose fs).starttimeAfterClassify =
        self.stats.starttime) ∧
    (self.have_appended_data = false →
      (self.append tr strict verbose fs).starttimeAfterClassify =
        self.stats.starttime) ∧
    (self.have_appended_data = true → self.max_length = none →
      ∀ t, (self.append tr strict verbose fs).result = .ok t →
        (self.append tr strict verbose fs).self.stats.starttime =
          (self.append tr strict verbose fs).starttimeAfterClassify) := by
  have hd := contDelta_coerceF4 self tr
  have hdf := contDiff_coerceF4 self tr
  refine ⟨?_, ?_, ?_, ?_⟩
  · intro hseed hge hle
    have hcl := classifyContinuity_contiguous self (coerceF4 tr) strict
      (by rw [hd]; exact hge) (by rw [hd]; exact hle)
    rw [if_neg (by simp [hseed]), hdf] at hcl
    exact (append_classified_facts self tr strict verbose fs false _ hchk hcl).2.1
  · intro hseed hout
    cases strict with
    | true =>
        rcases hout with hlt | hgt
        · have hcl := classifyContinuity_overlap_strict self (coerceF4 tr) hseed
            (by rw [hd]; exact hlt)
          rw [append_of_classifyFail self tr true verbose fs _ hchk hcl]
        · have hcl := classifyContinuity_gap_strict self (coerceF4 tr) hseed
            (by rw [hd]; exact hgt)
          rw [append_of_classifyFail self tr true verbose fs _ hchk hcl]
    | false =>
        have hcl := classifyContinuity_discont_loose self (coerceF4 tr) hseed
          (by rw [hd]; exact hout)
        exact (append_classified_facts self tr false verbose fs true _ hchk hcl).2.1
  · intro hun
    have hcl := classifyContinuity_unseeded self (coerceF4 tr) strict hun
    exact (append_classified_facts self tr strict verbose fs false _ hchk hcl).2.1
  · intro hseed hml t hok
    cases hcl : classifyContinuity self (coerceF4 tr) strict with
    | error e =>
        rw [append_of_classifyFail self tr strict verbose fs e hchk hcl] at hok
        cases hok
    | ok p =>
        obtain ⟨go, st1⟩ := p
        have hfacts := append_classified_facts self tr strict verbose fs go st1 hchk hcl
        cases hf : (applyProcessing fs go self.processing self.mem (coerceF4 tr).data).failure with
        | some msg =>
            rw [(hfacts.2.2.2.1 msg hf).1] at hok
            cases hok
        | none =>
            have hself := (hfacts.2.2.2.2 hf).2.2 hseed
            have hX : ({ self with
                stats := { self.stats with starttime := st1 }
                processing :=
                  (applyProcessing fs go self.processing self.mem (coerceF4 tr).data).entries
                mem := (applyProcessing fs go self.processing self.mem (coerceF4 tr).data).mem
                data := traceAdd self.data
                  (applyProcessing fs go self.processing self.mem (coerceF4 tr).data).data } :
                RtTrace).max_length = none := hml
            rw [hself, trimToMaxLength_of_none _ hX, hfacts.2.1]

/-- Witness for C4: a concrete contiguous append with delta = 0.05 shifts the
buffer start time from 0 to exactly `diff - 1/sr = 1/20`. -/
theorem C4_drift_correction_witness :
    sanityChecks wSeeded (coerceF4 (wPacket (61/20))) = none ∧
    wSeeded.have_appended_data = true ∧
    -(1/10) ≤ contDelta wSeeded (wPacket (61/20)) ∧
    contDelta wSeeded (wPacket (61/20)) ≤ 1/10 ∧
    (wSeeded.append (wPacket (61/20)) true false fsIdentity).starttimeAfterClassify
      = 1/20 := by
  have harith : contDelta wSeeded (wPacket (61/20)) = 1/20 := by
    norm_num [contDelta, contDiff, wSeeded, wPacket, RtTrace.endtime]
  have hchk : sanityChecks wSeeded (coerceF4 (wPacket (61/20))) = none := by
    simp [sanityChecks, wSeeded, wPacket, coerceF4, RtTrace.getId]
  refine ⟨hchk, rfl, by rw [harith]; norm_num, by rw [harith]; norm_num, ?_⟩
  have h := (C4_drift_correction wSeeded (wPacket (61/20)) true false fsIdentity hchk).1
    rfl (by rw [harith]; norm_num) (by rw [harith]; norm_num)
  rw [h]
  norm_num [contDiff, wSeeded, wPacket, RtTrace.endtime]

/-! ### C8 -/

/-- General form of the seeding append: on an unseeded buffer with no
registered transforms, `append` runs no checks and no classification and
adopts the (dtype-coerced) packet wholesale. -/
theorem append_unseeded_general (self : RtTrace) (tr : Trace) (strict verbose : Bool)
    (fs : FuncSem)
    (hun : self.have_appended_data = false) (hproc : self.processing = []) :
    self.append tr strict verbose fs =
      ⟨.ok (coerceF4 tr),
       { self with
         data := (coerceF4 tr).data
         dtype := (coerceF4 tr).dtype
         stats := (coerceF4 tr).stats
         have_appended_data := true },
       coerceF4 tr, false, self.stats.starttime⟩ := by
  have hchk : sanityChecks self (coerceF4 tr) = none := by
    unfold sanityChecks; rw [if_pos hun]
  have hcl := classifyContinuity_unseeded self (coerceF4 tr) strict hun
  rw [append_of_classified self tr strict verbose fs false self.stats.starttime hchk hcl]
  simp [hproc, applyProcessing_nil, hun]

/-- C8: appending to an unseeded (empty) accumulator with no transforms
registered never raises a header or continuity error irrespective of the
strictness and verbosity flags, performs no continuity classification
(discontinuity flag false, no start-time shift), and afterwards the buffer
holds the packet's samples and header verbatim. -/
theorem C8_unseeded_append_seeds_verbatim
    (self : RtTrace) (tr : Trace) (strict verbose : Bool) (fs : FuncSem)
    (hun : self.have_appended_data = false) (hproc : self.processing = []) :
    (self.append tr strict verbose fs).result = .ok (coerceF4 tr) ∧
    (self.append tr strict verbose fs).self.stats = tr.stats ∧
    (self.append tr strict verbose fs).self.data = tr.data ∧
    (self.append tr strict verbose fs).self.dtype = (coerceF4 tr).dtype ∧
    (self.append tr strict verbose fs).self.have_appended_data = true ∧
    (self.append tr strict verbose fs).gap_or_overlap = false ∧
    (self.append tr strict verbose fs).starttimeAfterClassify = self.stats.starttime := by
  rw [append_unseeded_general self tr strict verbose fs hun hproc]
  exact ⟨rfl, coerceF4_stats tr, coerceF4_data tr, rfl, rfl, rfl, rfl⟩

/-- Witness for C8: the fresh accumulator adopts a concrete packet verbatim
in strict mode. -/
theorem C8_unseeded_append_seeds_verbatim_witness :
    wFresh.have_appended_data = false ∧ wFresh.processing = [] ∧
    (wFresh.append (wPacket 0) true false fsIdentity).result = .ok (wPacket 0) ∧
    (wFresh.append (wPacket 0) true false fsIdentity).self.data = [4, 5] ∧
    (wFresh.append (wPacket 0) true false fsIdentity).self.stats = (wPacket 0).stats := by
  have h := C8_unseeded_append_seeds_verbatim wFresh (wPacket 0) true false fsIdentity rfl rfl
  refine ⟨rfl, rfl, ?_, ?_, ?_⟩
  · rw [h.1]; rfl
  · rw [h.2.2.1]; rfl
  · rw [h.2.1]

/-! ### Error classification helpers -/

theorem sanityChecks_some_isHeader (self : RtTrace) (t : Trace) (e : AppendError)
    (h : sanityChecks self t = some e) : e.isHeaderMismatch = true := by
  unfold sanityChecks at h
  split_ifs at h <;> cases h <;> rfl

theorem classifyContinuity_error_isContinuity (self : RtTrace) (t : Trace) (b : Bool)
    (e : AppendError) (h : classifyContinuity self t b = .error e) :
    e.isContinuityError = true := by
  simp only [classifyContinuity] at h
  split_ifs at h <;> cases h <;> rfl

/-- Final state of a successful seeded append when no retention bound is
configured: drift-corrected stats, updated registry/memory, concatenated
data. -/
theorem append_seeded_final_self (self : RtTrace) (tr : Trace) (strict verbose : Bool)
    (fs : FuncSem) (go : Bool) (st1 : ℚ)
    (hchk : sanityChecks self (coerceF4 tr) = none)
    (hcl : classifyContinuity self (coerceF4 tr) strict = .ok (go, st1))
    (hf : (applyProcessing fs go self.processing self.mem (coerceF4 tr).data).failure = none)
    (hsd : self.have_appended_data = true) (hml : self.max_length = none) :
    (self.append tr strict verbose fs).self =
      { self with
        stats := { self.stats with starttime := st1 }
        processing := (applyProcessing fs go self.processing self.mem (coerceF4 tr).data).entries
        mem := (applyProcessing fs go self.processing self.mem (coerceF4 tr).data).mem
        data := traceAdd self.data
          (applyProcessing fs go self.processing self.mem (coerceF4 tr).data).data
        have_appended_data := true } := by
  have hfacts := append_classified_facts self tr strict verbose fs go st1 hchk hcl
  have hX : ({ self with
      stats := { self.stats with starttime := st1 }
      processing := (applyProcessing fs go self.processing self.mem (coerceF4 tr).data).entries
      mem := (applyProcessing fs go self.processing self.mem (coerceF4 tr).data).mem
      data := traceAdd self.data
        (applyProcessing fs go self.processing self.mem (coerceF4 tr).data).data } :
      RtTrace).max_length = none := hml
  rw [(hfacts.2.2.2.2 hf).2.2 hsd, trimToMaxLength_of_none _ hX]

/-! ### C9 -/

/-- C9: on every successful append the value returned to the caller is the
transformed packet; its sample array is the output of the last pipeline
stage, and it is exactly the data merged into the buffer (the whole buffer
when the buffer was unseeded; the appended suffix when merging with no
retention bound configured). -/
theorem C9_returns_transformed_data
    (self : RtTrace) (tr : Trace) (strict verbose : Bool) (fs : FuncSem) (t : Trace)
    (h : (self.append tr strict verbose fs).result = .ok t) :
    t = (self.append tr strict verbose fs).packet ∧
    t.data = (applyProcessing fs (self.append tr strict verbose fs).gap_or_overlap
      self.processing self.mem (coerceF4 tr).data).data ∧
    (self.have_appended_data = false →
      (self.append tr strict verbose fs).self.data = t.data) ∧
    (self.have_appended_data = true → self.max_length = none →
      (self.append tr strict verbose fs).self.data = self.data ++ t.data) := by
  cases hchk : sanityChecks self (coerceF4 tr) with
  | some e =>
      rw [append_of_sanityFail self tr strict verbose fs e hchk] at h
      cases h
  | none =>
  cases hcl : classifyContinuity self (coerceF4 tr) strict with
  | error e =>
      rw [append_of_classifyFail self tr strict verbose fs e hchk hcl] at h
      cases h
  | ok p =>
  obtain ⟨go, st1⟩ := p
  have hfacts := append_classified_facts self tr strict verbose fs go st1 hchk hcl
  cases hf : (applyProcessing fs go self.processing self.mem (coerceF4 tr).data).failure with
  | some msg =>
      rw [(hfacts.2.2.2.1 msg hf).1] at h
      cases h
  | none =>
      have hok := (hfacts.2.2.2.2 hf).1
      have ht : t = (self.append tr strict verbose fs).packet :=
        Except.ok.inj (h.symm.trans hok)
      refine ⟨ht, ?_, ?_, ?_⟩
      · rw [hfacts.1, ht, hfacts.2.2.1]
      · intro hun
        rw [(hfacts.2.2.2.2 hf).2.1 hun, ht, hfacts.2.2.1]
      · intro hsd hml
        rw [append_seeded_final_self self tr strict verbose fs go st1 hchk hcl hf hsd hml,
          ht, hfacts.2.2.1]
        rfl

/-- Witness for C9: a successful concrete append onto the seeded buffer;
the returned trace carries the merged suffix and the buffer is the
concatenation. -/
theorem C9_returns_transformed_data_witness :
    (wSeeded.append (wPacket 3) true false fsIdentity).result = .ok (wPacket 3) ∧
    (wPacket 3).data =
      (applyProcessing fsIdentity
        (wSeeded.append (wPacket 3) true false fsIdentity).gap_or_overlap
        wSeeded.processing wSeeded.mem (coerceF4 (wPacket 3)).data).data ∧
    (wSeeded.append (wPacket 3) true false fsIdentity).self.data =
      wSeeded.data ++ (wPacket 3).data := by
  have hchk : sanityChecks wSeeded (coerceF4 (wPacket 3)) = none := by
    simp [sanityChecks, wSeeded, wPacket, coerceF4, RtTrace.getId]
  have harith : contDelta wSeeded (wPacket 3) = 0 := by
    norm_num [contDelta, contDiff, wSeeded, wPacket, RtTrace.endtime]
  have hcl := classifyContinuity_contiguous wSeeded (coerceF4 (wPacket 3)) true
    (by rw [contDelta_coerceF4, harith]; norm_num)
    (by rw [contDelta_coerceF4, harith]; norm_num)
  rw [if_neg (by simp [wSeeded])] at hcl
  have hok := ((append_classified_facts wSeeded (wPacket 3) true false fsIdentity false _
    hchk hcl).2.2.2.2 rfl).1
  have hres : (wSeeded.append (wPacket 3) true false fsIdentity).result = .ok (wPacket 3) := by
    rw [hok]
    rw [(append_classified_facts wSeeded (wPacket 3) true false fsIdentity false _
      hchk hcl).2.2.1]
    rfl
  have h9 := C9_returns_transformed_data wSeeded (wPacket 3) true false fsIdentity
    (wPacket 3) hres
  exact ⟨hres, h9.2.1, h9.2.2.2 rfl rfl⟩

/-! ### C10 -/

/-- C10: the caller's packet object is mutated in place.  Whatever the
outcome, the returned packet state has the original header and the
`float32`-coerced dtype; when a header check fails the packet has already
been replaced by its coercion (the coercion runs before any check); on every
path that reaches the pipeline (success or a transform failure) the packet's
sample array is the output of the last completed pipeline stage; and a
successful append returns exactly that mutated packet, not a copy. -/
theorem C10_packet_mutated_in_place
    (self : RtTrace) (tr : Trace) (strict verbose : Bool) (fs : FuncSem) :
    (self.append tr strict verbose fs).packet.stats = tr.stats ∧
    (self.append tr strict verbose fs).packet.dtype = (coerceF4 tr).dtype ∧
    (∀ e, (self.append tr strict verbose fs).result = .error e →
      e.isHeaderMismatch = true →
      (self.append tr strict verbose fs).packet = coerceF4 tr) ∧
    (∀ t, (self.append tr strict verbose fs).result = .ok t →
      (self.append tr strict verbose fs).packet.data =
        (applyProcessing fs (self.append tr strict verbose fs).gap_or_overlap
          self.processing self.mem (coerceF4 tr).data).data ∧
      t = (self.append tr strict verbose fs).packet) ∧
    (∀ msg, (self.append tr strict verbose fs).result = .error (.transformFailure msg) →
      (self.append tr strict verbose fs).packet.data =
        (applyProcessing fs (self.append tr strict verbose fs).gap_or_overlap
          self.processing self.mem (coerceF4 tr).data).data) := by
  cases hchk : sanityChecks self (coerceF4 tr) with
  | some e0 =>
      rw [append_of_sanityFail self tr strict verbose fs e0 hchk]
      refine ⟨coerceF4_stats tr, rfl, fun e he hh => rfl, ?_, ?_⟩
      · intro t ht
        cases ht
      · intro msg hm
        have hhm := sanityChecks_some_isHeader self _ e0 hchk
        cases hm
        cases hhm
  | none =>
  cases hcl : classifyContinuity self (coerceF4 tr) strict with
  | error e0 =>
      rw [append_of_classifyFail self tr strict verbose fs e0 hchk hcl]
      refine ⟨coerceF4_stats tr, rfl, fun e he hh => rfl, ?_, ?_⟩
      · intro t ht
        cases ht
      · intro msg hm
        have hce := classifyContinuity_error_isContinuity self _ strict e0 hcl
        cases hm
        cases hce
  | ok p =>
      obtain ⟨go, st1⟩ := p
      have hfacts := append_classified_facts self tr strict verbose fs go st1 hchk hcl
      refine ⟨?_, ?_, ?_, ?_, ?_⟩
      · rw [hfacts.2.2.1]; exact coerceF4_stats tr
      · rw [hfacts.2.2.1]
      · intro e he hh
        cases hf : (applyProcessing fs go self.processing self.mem (coerceF4 tr).data).failure with
        | some msg =>
            rw [(hfacts.2.2.2.1 msg hf).1] at he
            cases he
            cases hh
        | none =>
            rw [(hfacts.2.2.2.2 hf).1] at he
            cases he
      · intro t ht
        cases hf : (applyProcessing fs go self.processing self.mem (coerceF4 tr).data).failure with
        | some msg =>
            rw [(hfacts.2.2.2.1 msg hf).1] at ht
            cases ht
        | none =>
            have hok := (hfacts.2.2.2.2 hf).1
            refine ⟨?_, Except.ok.inj (ht.symm.trans hok)⟩
            rw [hfacts.1, hfacts.2.2.1]
      · intro msg hm
        cases hf : (applyProcessing fs go self.processing self.mem (coerceF4 tr).data).failure with
        | some msg2 =>
            rw [hfacts.1, hfacts.2.2.1]
        | none =>
            rw [(hfacts.2.2.2.2 hf).1] at hm
            cases hm

/-- Witness for C10: appending a little-endian `f4` packet onto the
`float64`-seeded buffer fails the dtype check, yet the caller's packet has
already been mutated to its `float32` coercion. -/
theorem C10_packet_mutated_in_place_witness :
    (wSeeded.append ⟨⟨"BW.RJOB..EHZ", 1, 1, 3⟩, DType.f4le, [4, 5]⟩ true false
        fsIdentity).result = .error (.dtypeMismatch DType.float64 DType.float32) ∧
    (wSeeded.append ⟨⟨"BW.RJOB..EHZ", 1, 1, 3⟩, DType.f4le, [4, 5]⟩ true false
        fsIdentity).packet = coerceF4 ⟨⟨"BW.RJOB..EHZ", 1, 1, 3⟩, DType.f4le, [4, 5]⟩ ∧
    (wSeeded.append ⟨⟨"BW.RJOB..EHZ", 1, 1, 3⟩, DType.f4le, [4, 5]⟩ true false
        fsIdentity).packet.dtype = DType.float32 := by
  have hchk : sanityChecks wSeeded (coerceF4 ⟨⟨"BW.RJOB..EHZ", 1, 1, 3⟩, DType.f4le, [4, 5]⟩)
      = some (.dtypeMismatch DType.float64 DType.float32) := by
    simp [sanityChecks, wSeeded, coerceF4, RtTrace.getId]
  have h := C10_packet_mutated_in_place wSeeded ⟨⟨"BW.RJOB..EHZ", 1, 1, 3⟩, DType.f4le, [4, 5]⟩
    true false fsIdentity
  have hres := append_of_sanityFail wSeeded ⟨⟨"BW.RJOB..EHZ", 1, 1, 3⟩, DType.f4le, [4, 5]⟩
    true false fsIdentity _ hchk
  have h1 : (wSeeded.append ⟨⟨"BW.RJOB..EHZ", 1, 1, 3⟩, DType.f4le, [4, 5]⟩ true false
      fsIdentity).result = .error (.dtypeMismatch DType.float64 DType.float32) := by
    rw [hres]
  have h2 := h.2.2.1 _ h1 rfl
  exact ⟨h1, h2, by rw [h2]; rfl⟩

/-! ### C5 -/

/-- C5 (code bug): registering the predefined `"tauc"` transform, whose
declared memory arity is 2, evaluates `RtMemory()` once and replicates the
reference (`[RtMemory()] * num`), so only one object is allocated
(`mem.next = 1`) and both slots hold the same address — the slots are aliased,
not mutually independent.  The entry is appended at the end of the registry
and the new registry length 1 is returned. -/
theorem C5_tauc_memory_slots_aliased :
    ((wFresh.registerRtProcess (.name "tauc") []).toOption.map (fun p =>
      (p.2, p.1.processing.map (fun e => e.rtmemory_list), p.1.mem.next))) =
    some (1, [some [0, 0]], 1) := by decide

/-! ### Memory-store lemmas for C2 -/

theorem alloc_fst (ms : MemStore) : ms.alloc.1 = ms.next := rfl

theorem alloc_next (ms : MemStore) : ms.alloc.2.next = ms.next + 1 := rfl

theorem alloc_val_self (ms : MemStore) : ms.alloc.2.val ms.next = RtMemory.initial := by
  simp [MemStore.alloc]

theorem alloc_val_other (ms : MemStore) (a : Nat) (h : a ≠ ms.next) :
    ms.alloc.2.val a = ms.val a := by
  simp [MemStore.alloc, h]

theorem writeMemory_next : ∀ (addrs : List Nat) (vals : List RtMemory) (ms : MemStore),
    (writeMemory ms addrs vals).next = ms.next
  | [], _, _ => rfl
  | _ :: _, [], _ => rfl
  | _ :: as, _ :: vs, _ => writeMemory_next as vs _

theorem writeMemory_val_congr : ∀ (addrs : List Nat) (vals : List RtMemory)
    (ms1 ms2 : MemStore) (a : Nat), ms1.val a = ms2.val a →
    (writeMemory ms1 addrs vals).val a = (writeMemory ms2 addrs vals).val a
  | [], _, _, _, _, h => h
  | _ :: _, [], _, _, _, h => h
  | b :: bs, v :: vs, ms1, ms2, a, h => by
      apply writeMemory_val_congr bs vs
      by_cases hab : a = b <;> simp [hab, h]

theorem resetMemoryList_cons_fst (x : Nat) (rest : List Nat) (ms : MemStore) :
    (resetMemoryList (x :: rest) ms).1 = ms.next :: (resetMemoryList rest ms.alloc.2).1 := rfl

theorem resetMemoryList_cons_snd (x : Nat) (rest : List Nat) (ms : MemStore) :
    (resetMemoryList (x :: rest) ms).2 = (resetMemoryList rest ms.alloc.2).2 := rfl

theorem resetMemoryList_next (l : List Nat) : ∀ (ms : MemStore),
    (resetMemoryList l ms).2.next = ms.next + l.length := by
  induction l with
  | nil => intro ms; rfl
  | cons x rest ih =>
      intro ms
      rw [resetMemoryList_cons_snd, ih ms.alloc.2, alloc_next]
      simp only [List.length_cons]
      omega

theorem resetMemoryList_fst (l : List Nat) : ∀ (ms1 ms2 : MemStore),
    ms1.next = ms2.next →
    (resetMemoryList l ms1).1 = (resetMemoryList l ms2).1 := by
  induction l with
  | nil => intro _ _ _; rfl
  | cons x rest ih =>
      intro ms1 ms2 h
      rw [resetMemoryList_cons_fst, resetMemoryList_cons_fst, h]
      exact congrArg (List.cons ms2.next)
        (ih _ _ (by rw [alloc_next, alloc_next, h]))

theorem resetMemoryList_val_old (l : List Nat) : ∀ (ms : MemStore) (a : Nat),
    a < ms.next → (resetMemoryList l ms).2.val a = ms.val a := by
  induction l with
  | nil => intro _ _ _; rfl
  | cons x rest ih =>
      intro ms a h
      rw [resetMemoryList_cons_snd, ih ms.alloc.2 a (by rw [alloc_next]; omega)]
      exact alloc_val_other ms a (Nat.ne_of_lt h)

theorem resetMemoryList_val_new (l : List Nat) : ∀ (ms : MemStore) (a : Nat),
    ms.next ≤ a → a < ms.next + l.length →
    (resetMemoryList l ms).2.val a = RtMemory.initial := by
  induction l with
  | nil =>
      intro ms a h1 h2
      simp only [List.length_nil, Nat.add_zero] at h2
      omega
  | cons x rest ih =>
      intro ms a h1 h2
      simp only [List.length_cons] at h2
      rw [resetMemoryList_cons_snd]
      rcases Nat.eq_or_lt_of_le h1 with he | hlt
      · rw [resetMemoryList_val_old rest ms.alloc.2 a (by rw [alloc_next]; omega)]
        rw [← he]
        exact alloc_val_self ms
      · exact ih ms.alloc.2 a (by rw [alloc_next]; omega) (by rw [alloc_next]; omega)

theorem resetMemoryList_mem_bound (l : List Nat) : ∀ (ms : MemStore) (a : Nat),
    a ∈ (resetMemoryList l ms).1 → ms.next ≤ a ∧ a < ms.next + l.length := by
  induction l with
  | nil => intro ms a h; cases h
  | cons x rest ih =>
      intro ms a h
      rw [resetMemoryList_cons_fst] at h
      simp only [List.mem_cons] at h
      simp only [List.length_cons]
      rcases h with h | h
      · subst h; omega
      · have := ih ms.alloc.2 a h
        rw [alloc_next] at this
        omega

theorem applyProcessing_cons (fs : FuncSem) (go : Bool) (e : ProcEntry)
    (rest : List ProcEntry) (ms : MemStore) (d : List ℚ) :
    applyProcessing fs go (e :: rest) ms d =
      (match invokeEntry fs (resetEntry go e ms).1 (resetEntry go e ms).2 d with
       | .error msg => ⟨(resetEntry go e ms).1 :: rest, (resetEntry go e ms).2, d, some msg⟩
       | .ok (ms2, d2) =>
          ⟨(resetEntry go e ms).1 :: (applyProcessing fs go rest ms2 d2).entries,
           (applyProcessing fs go rest ms2 d2).mem,
           (applyProcessing fs go rest ms2 d2).data,
           (applyProcessing fs go rest ms2 d2).failure⟩) := rfl

/-- With the discontinuity flag set, the pipeline's observable behaviour does
not depend on the pre-existing memory contents: every entry owning slots has
them reset to fresh, empty instances before its transform reads them.  `N`
marks the addresses allocated before the call (contents below `N` at equal
allocation counters may differ arbitrarily). -/
theorem applyProcessing_mem_indep (fs : FuncSem) (N : Nat) :
    ∀ (es : List ProcEntry) (ms1 ms2 : MemStore) (d : List ℚ),
    ms1.next = ms2.next → N ≤ ms1.next →
    (∀ a, N ≤ a → a < ms1.next → ms1.val a = ms2.val a) →
    (applyProcessing fs true es ms1 d).entries = (applyProcessing fs true es ms2 d).entries ∧
    (applyProcessing fs true es ms1 d).data = (applyProcessing fs true es ms2 d).data ∧
    (applyProcessing fs true es ms1 d).failure = (applyProcessing fs true es ms2 d).failure ∧
    (applyProcessing fs true es ms1 d).mem.next = (applyProcessing fs true es ms2 d).mem.next ∧
    ms1.next ≤ (applyProcessing fs true es ms1 d).mem.next ∧
    (∀ a, N ≤ a → a < (applyProcessing fs true es ms1 d).mem.next →
      (applyProcessing fs true es ms1 d).mem.val a =
        (applyProcessing fs true es ms2 d).mem.val a)
  | [], ms1, ms2, d, hnext, hN, hval =>
      ⟨rfl, rfl, rfl, hnext, le_refl _, fun a h1 h2 => hval a h1 h2⟩
  | e :: rest, ms1, ms2, d, hnext, hN, hval => by
      obtain ⟨e', s1', s2', hre1, hre2, hnext', hlow, hval', hreads⟩ :
          ∃ e' s1' s2', resetEntry true e ms1 = (e', s1') ∧
            resetEntry true e ms2 = (e', s2') ∧
            s1'.next = s2'.next ∧ ms1.next ≤ s1'.next ∧
            (∀ a, N ≤ a → a < s1'.next → s1'.val a = s2'.val a) ∧
            (e'.rtmemory_list.getD []).map s1'.val =
              (e'.rtmemory_list.getD []).map s2'.val := by
        cases hm : e.rtmemory_list with
        | none =>
            refine ⟨e, ms1, ms2, by simp [resetEntry, hm], by simp [resetEntry, hm],
              hnext, le_refl _, hval, ?_⟩
            simp [hm]
        | some addrs =>
            refine ⟨{ e with rtmemory_list := some (resetMemoryList addrs ms1).1 },
              (resetMemoryList addrs ms1).2, (resetMemoryList addrs ms2).2,
              by simp [resetEntry, hm], ?_, ?_, ?_, ?_, ?_⟩
            · simp only [resetEntry, hm]
              rw [if_pos trivial, resetMemoryList_fst addrs ms2 ms1 hnext.symm]
            · rw [resetMemoryList_next, resetMemoryList_next, hnext]
            · rw [resetMemoryList_next]; omega
            · intro a h1 h2
              rw [resetMemoryList_next] at h2
              by_cases hlt : a < ms1.next
              · rw [resetMemoryList_val_old addrs ms1 a hlt,
                  resetMemoryList_val_old addrs ms2 a (hnext ▸ hlt)]
                exact hval a h1 hlt
              · rw [resetMemoryList_val_new addrs ms1 a (by omega) (by omega),
                  resetMemoryList_val_new addrs ms2 a (by omega) (by omega)]
            · simp only [Option.getD_some]
              refine List.map_congr_left ?_
              intro a ha
              have hb := resetMemoryList_mem_bound addrs ms1 a ha
              rw [resetMemoryList_val_new addrs ms1 a hb.1 hb.2,
                resetMemoryList_val_new addrs ms2 a (by omega) (by omega)]
      rw [applyProcessing_cons fs true e rest ms1 d,
        applyProcessing_cons fs true e rest ms2 d, hre1, hre2]
      dsimp only
      cases hk : e'.kind with
      | callable f =>
          have hi1 : invokeEntry fs e' s1' d =
              match f d e'.options with
              | .error msg => .error msg
              | .ok d2 => .ok (s1', d2) := by
            simp [invokeEntry, hk]
          have hi2 : invokeEntry fs e' s2' d =
              match f d e'.options with
              | .error msg => .error msg
              | .ok d2 => .ok (s2', d2) := by
            simp [invokeEntry, hk]
          cases hf : f d e'.options with
          | error msg =>
              rw [hi1, hi2, hf]
              dsimp only
              exact ⟨rfl, rfl, rfl, hnext', hlow, hval'⟩
          | ok d2 =>
              rw [hi1, hi2, hf]
              dsimp only
              have hrec := applyProcessing_mem_indep fs N rest s1' s2' d2 hnext'
                (le_trans hN hlow) hval'
              exact ⟨congrArg (List.cons e') hrec.1, hrec.2.1, hrec.2.2.1, hrec.2.2.2.1,
                le_trans hlow hrec.2.2.2.2.1, hrec.2.2.2.2.2⟩
      | named s =>
          have hi1 : invokeEntry fs e' s1' d =
              match fs (strToLower s) d ((e'.rtmemory_list.getD []).map s1'.val)
                  e'.options with
              | .error msg => .error msg
              | .ok (d2, vals) =>
                  .ok (writeMemory s1' (e'.rtmemory_list.getD []) vals, d2) := by
            simp [invokeEntry, hk]
          have hi2 : invokeEntry fs e' s2' d =
              match fs (strToLower s) d ((e'.rtmemory_list.getD []).map s1'.val)
                  e'.options with
              | .error msg => .error msg
              | .ok (d2, vals) =>
                  .ok (writeMemory s2' (e'.rtmemory_list.getD []) vals, d2) := by
            rw [hreads]
            simp [invokeEntry, hk]
          cases hf : fs (strToLower s) d ((e'.rtmemory_list.getD []).map s1'.val)
              e'.options with
          | error msg =>
              rw [hi1, hi2, hf]
              dsimp only
              exact ⟨rfl, rfl, rfl, hnext', hlow, hval'⟩
          | ok pr =>
              obtain ⟨d2, vals⟩ := pr
              rw [hi1, hi2, hf]
              dsimp only
              have hw1 : (writeMemory s1' (e'.rtmemory_list.getD []) vals).next = s1'.next :=
                writeMemory_next _ _ _
              have hw2 : (writeMemory s2' (e'.rtmemory_list.getD []) vals).next = s2'.next :=
                writeMemory_next _ _ _
              have hrec := applyProcessing_mem_indep fs N rest
                (writeMemory s1' (e'.rtmemory_list.getD []) vals)
                (writeMemory s2' (e'.rtmemory_list.getD []) vals) d2
                (by rw [hw1, hw2]; exact hnext')
                (by rw [hw1]; exact le_trans hN hlow)
                (by
                  intro a h1 h2
                  rw [hw1] at h2
                  exact writeMemory_val_congr _ _ _ _ a (hval' a h1 h2))
              refine ⟨congrArg (List.cons e') hrec.1, hrec.2.1, hrec.2.2.1, hrec.2.2.2.1, ?_,
                hrec.2.2.2.2.2⟩
              have hb := hrec.2.2.2.2.1
              rw [hw1] at hb
              exact le_trans hlow hb

theorem applyProcessing_slotless (fs : FuncSem) (go : Bool) :
    ∀ (es : List ProcEntry) (ms : MemStore) (d : List ℚ) (i : Nat) (e : ProcEntry),
    es[i]? = some e → e.rtmemory_list = none →
    (applyProcessing fs go es ms d).entries[i]? = some e
  | [], _, _, i, _, h, _ => by simp at h
  | e0 :: rest, ms, d, 0, e, h, hnone => by
      simp only [List.getElem?_cons_zero, Option.some.injEq] at h
      subst h
      have hre : resetEntry go e0 ms = (e0, ms) := by
        unfold resetEntry
        cases go <;> simp [hnone]
      rw [applyProcessing_cons, hre]
      cases hi : invokeEntry fs e0 ms d with
      | error msg => simp [hi]
      | ok p =>
          obtain ⟨ms2, d2⟩ := p
          simp [hi]
  | e0 :: rest, ms, d, Nat.succ i, e, h, hnone => by
      simp only [List.getElem?_cons_succ] at h
      rw [applyProcessing_cons]
      cases hi : invokeEntry fs (resetEntry go e0 ms).1 (resetEntry go e0 ms).2 d with
      | error msg =>
          dsimp only
          simpa using h
      | ok p =>
          obtain ⟨ms2, d2⟩ := p
          dsimp only
          simpa using applyProcessing_slotless fs go rest ms2 d2 i e h hnone

theorem trimToMaxLength_proj (s1 s2 : RtTrace)
    (h1 : s1.max_length = s2.max_length) (h2 : s1.stats = s2.stats)
    (h3 : s1.data = s2.data) :
    (trimToMaxLength s1).data = (trimToMaxLength s2).data ∧
    (trimToMaxLength s1).stats = (trimToMaxLength s2).stats := by
  unfold trimToMaxLength
  rw [h1, h2, h3]
  cases hm : s2.max_length with
  | none => exact ⟨h3, h2⟩
  | some m =>
      dsimp only
      split
      · exact ⟨rfl, rfl⟩
      · exact ⟨h3, h2⟩

theorem trimToMaxLength_processing (s : RtTrace) :
    (trimToMaxLength s).processing = s.processing := by
  unfold trimToMaxLength
  cases hm : s.max_length with
  | none => rfl
  | some m =>
      dsimp only
      split <;> rfl

/-! ### C2 -/

/-- C2: when a discontinuity (gap or overlap beyond tolerance) was detected
and not raised as an error (non-strict mode), every memory slot of every
registry entry that owns slots is replaced with a freshly-initialized (empty)
memory instance before that entry's transform is invoked — hence the entire
observable outcome of `append` (result, packet, buffer data and header,
registry) is independent of the pre-call memory contents (at equal allocation
counters); entries without memory slots pass through unchanged. -/
theorem C2_memory_reset_on_discontinuity
    (self : RtTrace) (m1 m2 : MemStore) (tr : Trace) (verbose : Bool) (fs : FuncSem)
    (hnext : m1.next = m2.next)
    (hseed : self.have_appended_data = true)
    (hchk : sanityChecks self (coerceF4 tr) = none)
    (hdis : contDelta self tr < -(1/10) ∨ 1/10 < contDelta self tr) :
    (({ self with mem := m1 }).append tr false verbose fs).result =
      (({ self with mem := m2 }).append tr false verbose fs).result ∧
    (({ self with mem := m1 }).append tr false verbose fs).packet =
      (({ self with mem := m2 }).append tr false verbose fs).packet ∧
    (({ self with mem := m1 }).append tr false verbose fs).self.data =
      (({ self with mem := m2 }).append tr false verbose fs).self.data ∧
    (({ self with mem := m1 }).append tr false verbose fs).self.stats =
      (({ self with mem := m2 }).append tr false verbose fs).self.stats ∧
    (({ self with mem := m1 }).append tr false verbose fs).self.processing =
      (({ self with mem := m2 }).append tr false verbose fs).self.processing ∧
    (∀ (i : ℕ) (e : ProcEntry), self.processing[i]? = some e →
      e.rtmemory_list = none →
      (({ self with mem := m1 }).append tr false verbose fs).self.processing[i]? =
        some e) := by
  have hcl1 : classifyContinuity { self with mem := m1 } (coerceF4 tr) false =
      .ok (true, self.stats.starttime) :=
    classifyContinuity_discont_loose _ (coerceF4 tr) hseed
      (by rw [contDelta_coerceF4]; exact hdis)
  have hcl2 : classifyContinuity { self with mem := m2 } (coerceF4 tr) false =
      .ok (true, self.stats.starttime) :=
    classifyContinuity_discont_loose _ (coerceF4 tr) hseed
      (by rw [contDelta_coerceF4]; exact hdis)
  rw [append_of_classified { self with mem := m1 } tr false verbose fs true
        self.stats.starttime hchk hcl1,
      append_of_classified { self with mem := m2 } tr false verbose fs true
        self.stats.starttime hchk hcl2]
  dsimp only
  have hind := applyProcessing_mem_indep fs m1.next self.processing m1 m2 (coerceF4 tr).data
    hnext (le_refl _)
    (fun a h1 h2 => absurd (Nat.lt_of_le_of_lt h1 h2) (Nat.lt_irrefl m1.next))
  cases hf : (applyProcessing fs true self.processing m1 (coerceF4 tr).data).failure with
  | some msg =>
      have hf2 : (applyProcessing fs true self.processing m2 (coerceF4 tr).data).failure
          = some msg := by rw [← hind.2.2.1]; exact hf
      simp only [hf, hf2]
      refine ⟨by trivial, ?_, by trivial, by trivial, ?_, ?_⟩
      · rw [hind.2.1]
      · exact hind.1
      · intro i e hi hnone
        exact applyProcessing_slotless fs true self.processing m1 (coerceF4 tr).data i e
          hi hnone
  | none =>
      have hf2 : (applyProcessing fs true self.processing m2 (coerceF4 tr).data).failure
          = none := by rw [← hind.2.2.1]; exact hf
      simp only [hf, hf2, hseed, Bool.true_eq_false, if_false]
      have htr := trimToMaxLength_proj
        { self with
          stats := { self.stats with starttime := self.stats.starttime }
          have_appended_data := true
          processing := (applyProcessing fs true self.processing m1 (coerceF4 tr).data).entries
          mem := (applyProcessing fs true self.processing m1 (coerceF4 tr).data).mem
          data := traceAdd self.data
            (applyProcessing fs true self.processing m1 (coerceF4 tr).data).data }
        { self with
          stats := { self.stats with starttime := self.stats.starttime }
          have_appended_data := true
          processing := (applyProcessing fs true self.processing m2 (coerceF4 tr).data).entries
          mem := (applyProcessing fs true self.processing m2 (coerceF4 tr).data).mem
          data := traceAdd self.data
            (applyProcessing fs true self.processing m2 (coerceF4 tr).data).data }
        rfl rfl (by unfold traceAdd; rw [hind.2.1])
      refine ⟨?_, ?_, ?_, ?_, ?_, ?_⟩
      · rw [hind.2.1]
      · rw [hind.2.1]
      · exact htr.1
      · exact htr.2
      · rw [trimToMaxLength_processing, trimToMaxLength_processing]
        exact hind.1
      · intro i e hi hnone
        rw [trimToMaxLength_processing]
        exact applyProcessing_slotless fs true self.processing m1 (coerceF4 tr).data i e
          hi hnone

/-- A seeded accumulator with a registered stateful `integrate` entry owning
one memory slot at address 0. -/
def wSeededInt : RtTrace :=
  ⟨⟨"BW.RJOB..EHZ", 1, 1, 0⟩, DType.float64, [1, 2, 3], none, true,
   [⟨.named "integrate", [], some [0]⟩], ⟨1, fun _ => RtMemory.initial⟩, []⟩

/-- Memory heap whose slot 0 carries stale history `[42]`. -/
def wStoreA : MemStore := ⟨1, fun _ => ⟨[42]⟩⟩

/-- Memory heap whose slot 0 carries different stale history `[99]`. -/
def wStoreB : MemStore := ⟨1, fun _ => ⟨[99]⟩⟩

/-- Witness for C2: a concrete gap append (delta = 1) in non-strict mode
produces the same result whatever history the memory slots carried. -/
theorem C2_memory_reset_on_discontinuity_witness :
    wStoreA.next = wStoreB.next ∧
    wSeededInt.have_appended_data = true ∧
    sanityChecks wSeededInt (coerceF4 (wPacket 4)) = none ∧
    (contDelta wSeededInt (wPacket 4) < -(1/10) ∨
      1/10 < contDelta wSeededInt (wPacket 4)) ∧
    (({ wSeededInt with mem := wStoreA }).append (wPacket 4) false false fsIdentity).result =
      (({ wSeededInt with mem := wStoreB }).append (wPacket 4) false false
        fsIdentity).result := by
  have hchk : sanityChecks wSeededInt (coerceF4 (wPacket 4)) = none := by
    simp [sanityChecks, wSeededInt, wPacket, coerceF4, RtTrace.getId]
  have hdis : contDelta wSeededInt (wPacket 4) < -(1/10) ∨
      1/10 < contDelta wSeededInt (wPacket 4) := by
    right
    norm_num [contDelta, contDiff, wSeededInt, wPacket, RtTrace.endtime]
  exact ⟨rfl, rfl, hchk, hdis,
    (C2_memory_reset_on_discontinuity wSeededInt wStoreA wStoreB (wPacket 4) false
      fsIdentity rfl rfl hchk hdis).1⟩

/-! ### C6 -/

/-- A seeded accumulator (one sample at t = 0, end time 0) with a registered
direct-callable transform that always fails. -/
def wSeededFail : RtTrace :=
  ⟨⟨"BW.RJOB..EHZ", 1, 1, 0⟩, DType.float64, [1], none, true,
   [⟨.callable (fun _ _ => .error "boom"), [], none⟩], emptyStore, []⟩

/-- A matching one-sample packet starting at time `t`. -/
def wPacketOne (t : ℚ) : Trace := ⟨⟨"BW.RJOB..EHZ", 1, 1, t⟩, DType.float64, [9]⟩

/-- Concrete evaluation: appending a contiguous packet (delta = 0.05) whose
transform raises leaves the buffer data untouched but the start time already
shifted to `diff - 1/sr = 1/20`. -/
theorem wSeededFail_append_eval :
    (wSeededFail.append (wPacketOne (21/20)) true false fsIdentity).result =
      .error (.transformFailure "boom") ∧
    (wSeededFail.append (wPacketOne (21/20)) true false fsIdentity).self.stats.starttime
      = 1/20 ∧
    (wSeededFail.append (wPacketOne (21/20)) true false fsIdentity).self.data
      = wSeededFail.data ∧
    (wSeededFail.append (wPacketOne (21/20)) true false fsIdentity).starttimeAfterClassify
      = 1/20 := by
  have hchk : sanityChecks wSeededFail (coerceF4 (wPacketOne (21/20))) = none := by
    simp [sanityChecks, wSeededFail, wPacketOne, coerceF4, RtTrace.getId]
  have hb1 : -(1/10) ≤ contDelta wSeededFail (coerceF4 (wPacketOne (21/20))) := by
    rw [contDelta_coerceF4]
    norm_num [contDelta, contDiff, wSeededFail, wPacketOne, RtTrace.endtime]
  have hb2 : contDelta wSeededFail (coerceF4 (wPacketOne (21/20))) ≤ 1/10 := by
    rw [contDelta_coerceF4]
    norm_num [contDelta, contDiff, wSeededFail, wPacketOne, RtTrace.endtime]
  have hcl := classifyContinuity_contiguous wSeededFail (coerceF4 (wPacketOne (21/20)))
    true hb1 hb2
  rw [if_neg (by simp [wSeededFail])] at hcl
  have hfacts := append_classified_facts wSeededFail (wPacketOne (21/20)) true false
    fsIdentity false _ hchk hcl
  have hf : (applyProcessing fsIdentity false wSeededFail.processing wSeededFail.mem
      (coerceF4 (wPacketOne (21/20))).data).failure = some "boom" := rfl
  have h1 := hfacts.2.2.2.1 "boom" hf
  refine ⟨h1.1, ?_, ?_, ?_⟩
  · rw [h1.2]
    norm_num [contDiff, wSeededFail, wPacketOne, RtTrace.endtime, coerceF4_stats]
  · rw [h1.2]
  · rw [hfacts.2.1]
    norm_num [contDiff, wSeededFail, wPacketOne, RtTrace.endtime, coerceF4_stats]

/-- C6 counterexample: the claim says every error raised before the merge
step leaves the buffer state exactly as it was; here a transform error
propagates from a contiguous append and the buffer's `start_time` has already
been shifted by the clock-drift correction (0 to 1/20), so the state is not
unchanged. -/
theorem C6_transform_error_after_drift_shift :
    (wSeededFail.append (wPacketOne (21/20)) true false fsIdentity).result =
      .error (.transformFailure "boom") ∧
    wSeededFail.stats.starttime = 0 ∧
    (wSeededFail.append (wPacketOne (21/20)) true false fsIdentity).self.stats.starttime
      = 1/20 ∧
    (wSeededFail.append (wPacketOne (21/20)) true false fsIdentity).self ≠ wSeededFail := by
  have he := wSeededFail_append_eval
  refine ⟨he.1, rfl, he.2.1, ?_⟩
  intro hcontra
  have h0 := he.2.1
  rw [hcontra] at h0
  norm_num [wSeededFail] at h0

/-- C6 (amended): an append call that raises before the merge step performs
no partial merge: the buffer's samples, sample count, identity, sampling
rate, calibration, dtype and seeded flag are unchanged.  A header-mismatch or
strict-mode continuity error leaves the state exactly unchanged, start time
included; an error propagated from a transform leaves the start time at the
value produced by the classification stage — unchanged unless the append was
classified contiguous, in which case the clock-drift shift has already been
applied. -/
theorem C6_failfast_state
    (self : RtTrace) (tr : Trace) (strict verbose : Bool) (fs : FuncSem) (e : AppendError)
    (h : (self.append tr strict verbose fs).result = .error e) :
    ((e.isHeaderMismatch = true ∨ e.isContinuityError = true) →
      (self.append tr strict verbose fs).self = self) ∧
    (∀ msg, e = .transformFailure msg →
      (self.append tr strict verbose fs).self.data = self.data ∧
      (self.append tr strict verbose fs).self.stats.id = self.stats.id ∧
      (self.append tr strict verbose fs).self.stats.sampling_rate =
        self.stats.sampling_rate ∧
      (self.append tr strict verbose fs).self.stats.calib = self.stats.calib ∧
      (self.append tr strict verbose fs).self.dtype = self.dtype ∧
      (self.append tr strict verbose fs).self.have_appended_data =
        self.have_appended_data ∧
      (self.append tr strict verbose fs).self.stats.starttime =
        (self.append tr strict verbose fs).starttimeAfterClassify) := by
  cases hchk : sanityChecks self (coerceF4 tr) with
  | some e0 =>
      have hhm := sanityChecks_some_isHeader self _ e0 hchk
      rw [append_of_sanityFail self tr strict verbose fs e0 hchk] at h ⊢
      cases h
      refine ⟨fun _ => rfl, ?_⟩
      intro msg he
      rw [he] at hhm
      cases hhm
  | none =>
  cases hcl : classifyContinuity self (coerceF4 tr) strict with
  | error e0 =>
      have hce := classifyContinuity_error_isContinuity self _ strict e0 hcl
      rw [append_of_classifyFail self tr strict verbose fs e0 hchk hcl] at h ⊢
      cases h
      refine ⟨fun _ => rfl, ?_⟩
      intro msg he
      rw [he] at hce
      cases hce
  | ok p =>
      obtain ⟨go, st1⟩ := p
      have hfacts := append_classified_facts self tr strict verbose fs go st1 hchk hcl
      cases hf : (applyProcessing fs go self.processing self.mem (coerceF4 tr).data).failure with
      | none =>
          rw [(hfacts.2.2.2.2 hf).1] at h
          cases h
      | some msg0 =>
          have h1 := hfacts.2.2.2.1 msg0 hf
          rw [h1.1] at h
          cases h
          constructor
          · intro hdisj
            rcases hdisj with hd | hd <;> cases hd
          · intro msg he
            rw [h1.2, hfacts.2.1]
            exact ⟨rfl, rfl, rfl, rfl, rfl, rfl, rfl⟩

/-- Witness for C6 (amended): at the concrete transform failure the buffer
data is unchanged and the start time equals the classification stage's
output. -/
theorem C6_failfast_state_witness :
    (wSeededFail.append (wPacketOne (21/20)) true false fsIdentity).result =
      .error (.transformFailure "boom") ∧
    (wSeededFail.append (wPacketOne (21/20)) true false fsIdentity).self.data =
      wSeededFail.data ∧
    (wSeededFail.append (wPacketOne (21/20)) true false fsIdentity).self.stats.starttime =
      (wSeededFail.append (wPacketOne (21/20)) true false fsIdentity).starttimeAfterClassify := by
  have he := wSeededFail_append_eval
  have h6 := C6_failfast_state wSeededFail (wPacketOne (21/20)) true false fsIdentity
    (.transformFailure "boom") he.1
  exact ⟨he.1, (h6.2 "boom" rfl).1, (h6.2 "boom" rfl).2.2.2.2.2.2⟩

/-! ### C3 -/

/-- Behaviour of the bounded-retention left-trim: with `max_length = M`,
`max_samples` is `round(M*sr)`; when the buffer exceeds it, exactly the
oldest `len - max_samples` samples are dropped and `start_time` advances by
the dropped duration; otherwise nothing changes (no padding). -/
theorem trimToMaxLength_spec (s : RtTrace) (M : ℚ)
    (hml : s.max_length = some M) (hsr : 0 < s.stats.sampling_rate) (hM : 0 < M) :
    (s.data.length > (round (M * s.stats.sampling_rate)).toNat →
      (trimToMaxLength s).data =
        s.data.drop (s.data.length - (round (M * s.stats.sampling_rate)).toNat) ∧
      (trimToMaxLength s).stats.starttime = s.stats.starttime +
        ((s.data.length - (round (M * s.stats.sampling_rate)).toNat : ℕ) : ℚ) /
          s.stats.sampling_rate ∧
      (trimToMaxLength s).stats.sampling_rate = s.stats.sampling_rate) ∧
    (s.data.length ≤ (round (M * s.stats.sampling_rate)).toNat →
      trimToMaxLength s = s) := by
  have hnn : 0 ≤ round (M * s.stats.sampling_rate) := by
    rw [round_eq]
    apply Int.floor_nonneg.2
    have : 0 < M * s.stats.sampling_rate := mul_pos hM hsr
    linarith
  have hm : ((round (M * s.stats.sampling_rate)).toNat : ℤ) =
      round (M * s.stats.sampling_rate) := Int.toNat_of_nonneg hnn
  have hround : ⌊M * s.stats.sampling_rate + 1/2⌋ = round (M * s.stats.sampling_rate) :=
    (round_eq _).symm
  unfold trimToMaxLength
  rw [hml]
  dsimp only
  constructor
  · intro hgt
    rw [if_pos]
    swap
    · rw [hround, ← hm]
      exact_mod_cast hgt
    unfold ltrimTo
    have hsr0 : s.stats.sampling_rate ≠ 0 := ne_of_gt hsr
    have harg : (s.stats.starttime +
        ((s.data.length : ℚ) - (⌊M * s.stats.sampling_rate + 1/2⌋ : ℚ)) /
          s.stats.sampling_rate - s.stats.starttime) * s.stats.sampling_rate =
        ((s.data.length : ℚ) - (⌊M * s.stats.sampling_rate + 1/2⌋ : ℚ)) := by
      rw [add_sub_cancel_left, div_mul_cancel₀ _ hsr0]
    have hk : round ((s.stats.starttime +
        ((s.data.length : ℚ) - (⌊M * s.stats.sampling_rate + 1/2⌋ : ℚ)) /
          s.stats.sampling_rate - s.stats.starttime) * s.stats.sampling_rate) =
        (s.data.length : ℤ) - round (M * s.stats.sampling_rate) := by
      rw [harg, hround]
      have : ((s.data.length : ℚ) - ((round (M * s.stats.sampling_rate) : ℤ) : ℚ)) =
          (((s.data.length : ℤ) - round (M * s.stats.sampling_rate) : ℤ) : ℚ) := by
        push_cast
        ring
      rw [this, round_intCast]
    have hkn : (round ((s.stats.starttime +
        ((s.data.length : ℚ) - (⌊M * s.stats.sampling_rate + 1/2⌋ : ℚ)) /
          s.stats.sampling_rate - s.stats.starttime) * s.stats.sampling_rate)).toNat =
        s.data.length - (round (M * s.stats.sampling_rate)).toNat := by
      rw [hk]
      omega
    refine ⟨?_, ?_, rfl⟩
    · dsimp only
      rw [hkn]
    · dsimp only
      rw [hkn]
  · intro hle
    rw [if_neg]
    rw [hround, ← hm]
    simp only [not_lt]
    exact_mod_cast hle

/-- A fresh accumulator with a retention bound of 1 second at 1 Hz. -/
def wFreshBounded : RtTrace :=
  ⟨⟨"", 1, 1, 0⟩, DType.float64, [], some 1, false, [], emptyStore, []⟩

/-- C3 counterexample: the claim says the sample count never exceeds
`round(M*sr)` after any sequence of successful appends; but the seeding
append stores the first packet verbatim without trimming, so a 5-sample
first packet leaves 5 samples in a buffer bounded to round(1*1) = 1. -/
theorem C3_seed_append_exceeds_bound :
    (wFreshBounded.append ⟨⟨"BW", 1, 1, 0⟩, DType.float64, [1, 2, 3, 4, 5]⟩ true false
        fsIdentity).result.isOk = true ∧
    wFreshBounded.max_length = some 1 ∧
    (round ((1 : ℚ) * wFreshBounded.stats.sampling_rate)).toNat = 1 ∧
    (wFreshBounded.append ⟨⟨"BW", 1, 1, 0⟩, DType.float64, [1, 2, 3, 4, 5]⟩ true false
        fsIdentity).self.data.length = 5 := by
  have h := append_unseeded_general wFreshBounded
    ⟨⟨"BW", 1, 1, 0⟩, DType.float64, [1, 2, 3, 4, 5]⟩ true false fsIdentity rfl rfl
  rw [h]
  refine ⟨rfl, rfl, ?_, rfl⟩
  norm_num [wFreshBounded, round_one]

/-- C3 (amended): for every successful append onto an already-seeded buffer
with retention bound `M` seconds (the seeding append stores the first packet
verbatim without trimming), the resulting sample count never exceeds
`round(M*sr)`; when the merged series exceeds that bound, the trim removes
exactly the oldest samples down to `round(M*sr)` and advances `start_time`
by the trimmed duration; when it does not, nothing is trimmed or padded; and
in either case the trim never changes the buffer's end time. -/
theorem C3_retention_bound
    (self : RtTrace) (tr : Trace) (strict verbose : Bool) (fs : FuncSem) (M : ℚ) (t : Trace)
    (hseed : self.have_appended_data = true)
    (hml : self.max_length = some M)
    (hsr : 0 < self.stats.sampling_rate)
    (hM : 0 < M)
    (hok : (self.append tr strict verbose fs).result = .ok t) :
    ((self.append tr strict verbose fs).self.data.length ≤
      (round (M * self.stats.sampling_rate)).toNat) ∧
    ((self.data ++ t.data).length > (round (M * self.stats.sampling_rate)).toNat →
      (self.append tr strict verbose fs).self.data =
        (self.data ++ t.data).drop
          ((self.data ++ t.data).length - (round (M * self.stats.sampling_rate)).toNat) ∧
      (self.append tr strict verbose fs).self.stats.starttime =
        (self.append tr strict verbose fs).starttimeAfterClassify +
          (((self.data ++ t.data).length -
            (round (M * self.stats.sampling_rate)).toNat : ℕ) : ℚ) /
            self.stats.sampling_rate) ∧
    ((self.data ++ t.data).length ≤ (round (M * self.stats.sampling_rate)).toNat →
      (self.append tr strict verbose fs).self.data = self.data ++ t.data ∧
      (self.append tr strict verbose fs).self.stats.starttime =
        (self.append tr strict verbose fs).starttimeAfterClassify) ∧
    ((self.append tr strict verbose fs).self.stats.starttime +
        (((self.append tr strict verbose fs).self.data.length : ℚ) - 1) /
          self.stats.sampling_rate =
      (self.append tr strict verbose fs).starttimeAfterClassify +
        (((self.data ++ t.data).length : ℚ) - 1) / self.stats.sampling_rate) := by
  cases hchk : sanityChecks self (coerceF4 tr) with
  | some e =>
      rw [append_of_sanityFail self tr strict verbose fs e hchk] at hok
      cases hok
  | none =>
  cases hcl : classifyContinuity self (coerceF4 tr) strict with
  | error e =>
      rw [append_of_classifyFail self tr strict verbose fs e hchk hcl] at hok
      cases hok
  | ok p =>
  obtain ⟨go, st1⟩ := p
  have hfacts := append_classified_facts self tr strict verbose fs go st1 hchk hcl
  cases hf : (applyProcessing fs go self.processing self.mem (coerceF4 tr).data).failure with
  | some msg =>
      rw [(hfacts.2.2.2.1 msg hf).1] at hok
      cases hok
  | none =>
  have ht : t = (self.append tr strict verbose fs).packet :=
    Except.ok.inj (hok.symm.trans (hfacts.2.2.2.2 hf).1)
  have htd : self.data ++ t.data = traceAdd self.data
      (applyProcessing fs go self.processing self.mem (coerceF4 tr).data).data := by
    rw [ht, hfacts.2.2.1]
    rfl
  have hself := (hfacts.2.2.2.2 hf).2.2 hseed
  have hspec := trimToMaxLength_spec
    { self with
      stats := { self.stats with starttime := st1 }
      processing := (applyProcessing fs go self.processing self.mem (coerceF4 tr).data).entries
      mem := (applyProcessing fs go self.processing self.mem (coerceF4 tr).data).mem
      data := traceAdd self.data
        (applyProcessing fs go self.processing self.mem (coerceF4 tr).data).data }
    M hml hsr hM
  rw [hfacts.2.1, hself]
  rw [htd]
  rcases le_or_lt (traceAdd self.data
      (applyProcessing fs go self.processing self.mem (coerceF4 tr).data).data).length
      ((round (M * self.stats.sampling_rate)).toNat) with hle | hlt
  · have hid := hspec.2 hle
    refine ⟨?_, ?_, ?_, ?_⟩
    · show (trimToMaxLength _).data.length ≤ _
      rw [hid]
      exact hle
    · intro hgt
      exact absurd hgt (not_lt.2 hle)
    · intro _
      show (trimToMaxLength _).data = _ ∧ (trimToMaxLength _).stats.starttime = _
      rw [hid]
      exact ⟨rfl, rfl⟩
    · show (trimToMaxLength _).stats.starttime + _ = _
      rw [hid]
  · have htrim := hspec.1 hlt
    have hlen : (trimToMaxLength
        { self with
          stats := { self.stats with starttime := st1 }
          processing :=
            (applyProcessing fs go self.processing self.mem (coerceF4 tr).data).entries
          mem := (applyProcessing fs go self.processing self.mem (coerceF4 tr).data).mem
          data := traceAdd self.data
            (applyProcessing fs go self.processing self.mem (coerceF4 tr).data).data }).data.length
        = (round (M * self.stats.sampling_rate)).toNat := by
      rw [htrim.1, List.length_drop]
      dsimp only
      omega
    refine ⟨?_, ?_, ?_, ?_⟩
    · show (trimToMaxLength _).data.length ≤ _
      rw [hlen]
    · intro _
      show (trimToMaxLength _).data = _ ∧ (trimToMaxLength _).stats.starttime = _
      exact ⟨htrim.1, htrim.2.1⟩
    · intro hle2
      exact absurd hle2 (not_le.2 hlt)
    · show (trimToMaxLength _).stats.starttime + _ = _
      rw [htrim.2.1, hlen]
      have hsr0 : self.stats.sampling_rate ≠ 0 := ne_of_gt hsr
      have hcast : (((traceAdd self.data
          (applyProcessing fs go self.processing self.mem (coerceF4 tr).data).data).length
          - (round (M * self.stats.sampling_rate)).toNat : ℕ) : ℚ) =
          ((traceAdd self.data
            (applyProcessing fs go self.processing self.mem (coerceF4 tr).data).data).length
            : ℚ) - ((round (M * self.stats.sampling_rate)).toNat : ℚ) := by
        push_cast [Nat.cast_sub (le_of_lt hlt)]
        ring
      rw [hcast]
      field_simp
      ring

/-- A seeded accumulator bounded to 2 seconds at 1 Hz holding 2 samples. -/
def wSeededM : RtTrace :=
  ⟨⟨"BW.RJOB..EHZ", 1, 1, 0⟩, DType.float64, [1, 2], some 2, true, [], emptyStore, []⟩

/-- Concrete evaluation for the C3 witness: the contiguous append succeeds
and returns the packet. -/
theorem wSeededM_append_eval :
    (wSeededM.append (wPacket 2) true false fsIdentity).result = .ok (wPacket 2) := by
  have hchk : sanityChecks wSeededM (coerceF4 (wPacket 2)) = none := by
    simp [sanityChecks, wSeededM, wPacket, coerceF4, RtTrace.getId]
  have hcl := classifyContinuity_contiguous wSeededM (coerceF4 (wPacket 2)) true
    (by rw [contDelta_coerceF4]
        norm_num [contDelta, contDiff, wSeededM, wPacket, RtTrace.endtime])
    (by rw [contDelta_coerceF4]
        norm_num [contDelta, contDiff, wSeededM, wPacket, RtTrace.endtime])
  rw [if_neg (by simp [wSeededM])] at hcl
  have hfacts := append_classified_facts wSeededM (wPacket 2) true false fsIdentity
    false _ hchk hcl
  rw [(hfacts.2.2.2.2 rfl).1, hfacts.2.2.1]
  rfl

/-- Witness for C3 (amended): merging [1,2] with [4,5] under a 2-sample bound
trims to exactly the most recent 2 samples. -/
theorem C3_retention_bound_witness :
    wSeededM.have_appended_data = true ∧
    wSeededM.max_length = some 2 ∧
    (0 : ℚ) < wSeededM.stats.sampling_rate ∧
    (wSeededM.append (wPacket 2) true false fsIdentity).result = .ok (wPacket 2) ∧
    (wSeededM.append (wPacket 2) true false fsIdentity).self.data.length ≤
      (round ((2 : ℚ) * wSeededM.stats.sampling_rate)).toNat ∧
    (wSeededM.append (wPacket 2) true false fsIdentity).self.data = [4, 5] := by
  have hres := wSeededM_append_eval
  have h3 := C3_retention_bound wSeededM (wPacket 2) true false fsIdentity 2 (wPacket 2)
    rfl rfl (by norm_num [wSeededM]) (by norm_num) hres
  have hr2 : (round ((2 : ℚ) * wSeededM.stats.sampling_rate)).toNat = 2 := by
    have : round ((2 : ℚ) * wSeededM.stats.sampling_rate) = 2 := by
      norm_num [wSeededM]
    rw [this]
    rfl
  have hgt : (wSeededM.data ++ (wPacket 2).data).length >
      (round ((2 : ℚ) * wSeededM.stats.sampling_rate)).toNat := by
    rw [hr2]
    norm_num [wSeededM, wPacket]
  refine ⟨rfl, rfl, by norm_num [wSeededM], hres, h3.1, ?_⟩
  have hd := (h3.2.1 hgt).1
  rw [hd, hr2]
  rfl

/-! ### C7: slice and split lemmas -/

theorem coerceF4_dtype_congr (t1 t2 : Trace) (h : t1.dtype = t2.dtype) :
    (coerceF4 t1).dtype = (coerceF4 t2).dtype := by
  unfold coerceF4
  rw [apply_ite Trace.dtype, apply_ite Trace.dtype]
  simp only [h]

theorem take_min_length (l : List ℚ) (a c : ℕ) :
    (l.drop a).take (min (l.length - a) c) = (l.drop a).take c := by
  rcases le_or_lt c (l.length - a) with h | h
  · rw [min_eq_right h]
  · rw [min_eq_left (le_of_lt h)]
    rw [List.take_of_length_le, List.take_of_length_le]
    · rw [List.length_drop]
      omega
    · rw [List.length_drop]

theorem splitLoop_succ (tr : Trace) (pl : ℤ) (k : ℕ) (tstart : ℚ) :
    splitLoop tr pl (k + 1) tstart =
      traceSlice tr tstart (tstart + tr.dt * (pl : ℚ)) ::
        splitLoop tr pl k (tstart + tr.dt * (pl : ℚ) + tr.dt) := rfl

theorem splitLoop_mem (tr : Trace) (pl : ℤ) :
    ∀ (k : ℕ) (tstart : ℚ) (i : ℕ), i < k →
      traceSlice tr (tstart + (i : ℚ) * (tr.dt * ((pl : ℚ) + 1)))
          (tstart + (i : ℚ) * (tr.dt * ((pl : ℚ) + 1)) + tr.dt * (pl : ℚ)) ∈
        splitLoop tr pl k tstart
  | 0, _, i, h => absurd h (Nat.not_lt_zero i)
  | k + 1, tstart, 0, _ => by
      rw [splitLoop_succ]
      have h0 : tstart + (0 : ℕ) * (tr.dt * ((pl : ℚ) + 1)) = tstart := by
        push_cast
        ring
      rw [h0]
      exact List.mem_cons_self _ _
  | k + 1, tstart, i + 1, h => by
      rw [splitLoop_succ]
      refine List.mem_cons_of_mem _ ?_
      have hmem := splitLoop_mem tr pl k (tstart + tr.dt * (pl : ℚ) + tr.dt) i
        (by omega)
      have harr1 : tstart + tr.dt * (pl : ℚ) + tr.dt + (i : ℚ) * (tr.dt * ((pl : ℚ) + 1)) =
          tstart + ((i + 1 : ℕ) : ℚ) * (tr.dt * ((pl : ℚ) + 1)) := by
        push_cast
        ring
      rw [harr1] at hmem
      exact hmem

theorem traceSlice_data_empty (tr : Trace) (t1 t2 : ℚ)
    (h : tr.data.length ≤
      (max 0 (round ((t1 - tr.stats.starttime) * tr.stats.sampling_rate))).toNat) :
    (traceSlice tr t1 t2).data = [] := by
  simp only [traceSlice]
  rw [List.drop_eq_nil_of_le h]
  exact List.take_nil

/-- The `j`-th length-`c` chunk of a trace: `c` samples starting `j * c`
samples in, with the start time advanced accordingly. -/
def chunkTrace (tr : Trace) (c j : ℕ) : Trace :=
  { tr with
    stats := { tr.stats with
      starttime := tr.stats.starttime + ((j * c : ℕ) : ℚ) * tr.dt }
    data := (tr.data.drop (j * c)).take c }

/-- The accumulator state after absorbing the first `m` samples of `tr` into
`base`: header adopted, dtype coerced, data prefix of length `m`. -/
def bufAfter (tr : Trace) (base : RtTrace) (m : ℕ) : RtTrace :=
  { base with
    stats := tr.stats
    dtype := (coerceF4 tr).dtype
    data := tr.data.take m
    have_appended_data := true }

theorem traceSlice_chunk (tr : Trace) (c j : ℕ)
    (hsr : 0 < tr.stats.sampling_rate) (hc : 1 ≤ c) (hj : j * c < tr.data.length) :
    traceSlice tr (tr.stats.starttime + ((j * c : ℕ) : ℚ) * tr.dt)
        (tr.stats.starttime + ((j * c : ℕ) : ℚ) * tr.dt + tr.dt * ((c : ℚ) - 1)) =
      chunkTrace tr c j := by
  unfold chunkTrace
  have hsr0 : tr.stats.sampling_rate ≠ 0 := ne_of_gt hsr
  have hdt : tr.dt * tr.stats.sampling_rate = 1 := by
    unfold Trace.dt
    field_simp
  simp only [traceSlice]
  have h1 : (tr.stats.starttime + ((j * c : ℕ) : ℚ) * tr.dt - tr.stats.starttime) *
      tr.stats.sampling_rate = ((j * c : ℕ) : ℚ) := by
    rw [add_sub_cancel_left, mul_assoc, hdt, mul_one]
  have h2 : (tr.stats.starttime + ((j * c : ℕ) : ℚ) * tr.dt + tr.dt * ((c : ℚ) - 1)
      - tr.stats.starttime) * tr.stats.sampling_rate =
      ((j * c : ℕ) : ℚ) + ((c : ℚ) - 1) := by
    have hx : tr.stats.starttime + ((j * c : ℕ) : ℚ) * tr.dt + tr.dt * ((c : ℚ) - 1)
        - tr.stats.starttime = (((j * c : ℕ) : ℚ) + ((c : ℚ) - 1)) * tr.dt := by
      ring
    rw [hx, mul_assoc, hdt, mul_one]
  rw [h1, h2]
  have hr1 : round ((j * c : ℕ) : ℚ) = ((j * c : ℕ) : ℤ) := round_natCast _
  have hr2 : round (((j * c : ℕ) : ℚ) + ((c : ℚ) - 1)) = ((j * c : ℕ) : ℤ) + (c : ℤ) - 1 := by
    have hx : ((j * c : ℕ) : ℚ) + ((c : ℚ) - 1) =
        ((((j * c : ℕ) : ℤ) + (c : ℤ) - 1 : ℤ) : ℚ) := by
      push_cast
      ring
    rw [hx, round_intCast]
  rw [hr1, hr2]
  have hmax : max (0 : ℤ) ((j * c : ℕ) : ℤ) = ((j * c : ℕ) : ℤ) :=
    max_eq_right (Int.natCast_nonneg _)
  rw [hmax]
  have hi1 : (((j * c : ℕ) : ℤ)).toNat = j * c := Int.toNat_natCast _
  have hT : (min ((tr.data.length : ℤ) - 1) (((j * c : ℕ) : ℤ) + (c : ℤ) - 1)
      - ((j * c : ℕ) : ℤ) + 1).toNat = min (tr.data.length - j * c) c := by
    omega
  rw [hi1, hT, take_min_length]
  have hst : tr.stats.starttime + (((j * c : ℕ) : ℤ) : ℚ) / tr.stats.sampling_rate =
      tr.stats.starttime + ((j * c : ℕ) : ℚ) * tr.dt := by
    unfold Trace.dt
    rw [mul_one_div]
    norm_num
  rw [hst]

theorem traceSlice_chunk_zero (tr : Trace) (c : ℕ)
    (hsr : 0 < tr.stats.sampling_rate) (hc : 1 ≤ c) (hn : 0 < tr.data.length) :
    traceSlice tr tr.stats.starttime (tr.stats.starttime + tr.dt * ((c : ℚ) - 1)) =
      { tr with data := tr.data.take c } := by
  have h := traceSlice_chunk tr c 0 hsr hc (by simpa using hn)
  have h0 : tr.stats.starttime + ((0 * c : ℕ) : ℚ) * tr.dt = tr.stats.starttime := by
    push_cast
    ring
  rw [h0] at h
  rw [h]
  unfold chunkTrace
  rw [h0]
  simp

theorem append_contiguous_chunk (tr : Trace) (base : RtTrace) (fs : FuncSem)
    (verbose : Bool) (c j : ℕ)
    (hsr : 0 < tr.stats.sampling_rate) (hc : 1 ≤ c)
    (hproc : base.processing = []) (hml : base.max_length = none)
    (hj : j * c < tr.data.length) :
    (∃ tt, ((bufAfter tr base (j * c)).append (chunkTrace tr c j)
        true verbose fs).result = .ok tt) ∧
    ((bufAfter tr base (j * c)).append (chunkTrace tr c j)
        true verbose fs).self = bufAfter tr base ((j + 1) * c) := by
  have hsr0 : tr.stats.sampling_rate ≠ 0 := ne_of_gt hsr
  have hd : (coerceF4 tr).dtype = (coerceF4 (chunkTrace tr c j)).dtype :=
    coerceF4_dtype_congr tr (chunkTrace tr c j) rfl
  have hchk : sanityChecks (bufAfter tr base (j * c)) (coerceF4 (chunkTrace tr c j)) = none := by
    simp [sanityChecks, RtTrace.getId, bufAfter, chunkTrace, coerceF4_stats, hd]
  have hlen : ((bufAfter tr base (j * c)).data).length = j * c := by
    show (tr.data.take (j * c)).length = j * c
    rw [List.length_take]
    omega
  have hdelta : contDelta (bufAfter tr base (j * c)) (coerceF4 (chunkTrace tr c j)) = 0 := by
    unfold contDelta contDiff RtTrace.endtime
    rw [coerceF4_stats, hlen]
    show ((tr.stats.starttime + ((j * c : ℕ) : ℚ) * tr.dt) -
        (tr.stats.starttime + (((j * c : ℕ) : ℚ) - 1) / tr.stats.sampling_rate)) *
        tr.stats.sampling_rate - 1 = 0
    unfold Trace.dt
    field_simp
  have hdiff : contDiff (bufAfter tr base (j * c)) (coerceF4 (chunkTrace tr c j)) =
      1 / tr.stats.sampling_rate := by
    unfold contDelta at hdelta
    have hsr2 : (bufAfter tr base (j * c)).stats.sampling_rate = tr.stats.sampling_rate := rfl
    rw [hsr2] at hdelta
    rw [eq_div_iff hsr0]
    linarith
  have hst1 : (bufAfter tr base (j * c)).stats.starttime +
      contDiff (bufAfter tr base (j * c)) (coerceF4 (chunkTrace tr c j)) -
      1 / (bufAfter tr base (j * c)).stats.sampling_rate = tr.stats.starttime := by
    have h1 : (bufAfter tr base (j * c)).stats.starttime = tr.stats.starttime := rfl
    have h2 : (bufAfter tr base (j * c)).stats.sampling_rate = tr.stats.sampling_rate := rfl
    rw [h1, h2, hdiff]
    ring
  have hcl := classifyContinuity_contiguous (bufAfter tr base (j * c))
    (coerceF4 (chunkTrace tr c j)) true (by rw [hdelta]; norm_num) (by rw [hdelta]; norm_num)
  rw [if_neg (by simp [bufAfter])] at hcl
  rw [hst1] at hcl
  have hp : (bufAfter tr base (j * c)).processing = [] := hproc
  have hfl : (applyProcessing fs false (bufAfter tr base (j * c)).processing
      (bufAfter tr base (j * c)).mem (coerceF4 (chunkTrace tr c j)).data).failure = none := by
    rw [hp, applyProcessing_nil]
  have hfacts := append_classified_facts (bufAfter tr base (j * c)) (chunkTrace tr c j)
    true verbose fs false tr.stats.starttime hchk hcl
  have hmlB : (bufAfter tr base (j * c)).max_length = none := hml
  have hsd : (bufAfter tr base (j * c)).have_appended_data = true := rfl
  have hfin := append_seeded_final_self (bufAfter tr base (j * c)) (chunkTrace tr c j)
    true verbose fs false tr.stats.starttime hchk hcl hfl hsd hmlB
  refine ⟨⟨_, (hfacts.2.2.2.2 hfl).1⟩, ?_⟩
  rw [hp, applyProcessing_nil, coerceF4_data] at hfin
  dsimp only at hfin
  rw [hfin]
  have hdata : traceAdd ((bufAfter tr base (j * c)).data) ((chunkTrace tr c j).data) =
      tr.data.take ((j + 1) * c) := by
    show traceAdd (tr.data.take (j * c)) ((tr.data.drop (j * c)).take c) =
      tr.data.take ((j + 1) * c)
    unfold traceAdd
    rw [show (j + 1) * c = j * c + c from by ring, List.take_add]
  rw [hdata]
  unfold bufAfter
  rw [show ([] : List ProcEntry) = base.processing from hproc.symm]

theorem appendAll_chunks (tr : Trace) (base : RtTrace) (fs : FuncSem) (verbose : Bool)
    (c : ℕ) (hsr : 0 < tr.stats.sampling_rate) (hc : 1 ≤ c)
    (hproc : base.processing = []) (hml : base.max_length = none) :
    ∀ (k j : ℕ), 1 ≤ j → (k = 0 ∨ (j + k - 1) * c < tr.data.length) →
      appendAll fs true verbose (bufAfter tr base (j * c))
          (splitLoop tr ((c : ℤ) - 1) k
            (tr.stats.starttime + ((j * c : ℕ) : ℚ) * tr.dt)) =
        .ok (bufAfter tr base ((j + k) * c))
  | 0, j, _, _ => by
      simp [splitLoop, appendAll]
  | k + 1, j, hj1, hbound => by
      rw [splitLoop_succ]
      have hcast : tr.dt * ((((c : ℤ) - 1) : ℤ) : ℚ) = tr.dt * ((c : ℚ) - 1) := by
        push_cast
        ring
      rw [hcast]
      have hj : j * c < tr.data.length := by
        rcases hbound with h | h
        · exact absurd h (by omega)
        · have he : j + (k + 1) - 1 = j + k := by omega
          rw [he] at h
          have hle : j * c ≤ (j + k) * c := Nat.mul_le_mul_right c (Nat.le_add_right j k)
          omega
      rw [traceSlice_chunk tr c j hsr hc hj]
      obtain ⟨⟨tt, hok⟩, hsf⟩ :=
        append_contiguous_chunk tr base fs verbose c j hsr hc hproc hml hj
      simp only [appendAll]
      rw [hok]
      dsimp only
      rw [hsf]
      have htime : tr.stats.starttime + ((j * c : ℕ) : ℚ) * tr.dt + tr.dt * ((c : ℚ) - 1)
          + tr.dt = tr.stats.starttime + (((j + 1) * c : ℕ) : ℚ) * tr.dt := by
        push_cast
        ring
      rw [htime]
      have hrec := appendAll_chunks tr base fs verbose c hsr hc hproc hml k (j + 1)
        (by omega)
        (by rcases hbound with h | h
            · exact absurd h (by omega)
            · rcases Nat.eq_zero_or_pos k with h0 | h0
              · exact Or.inl h0
              · refine Or.inr ?_
                have he : j + 1 + k - 1 = j + (k + 1) - 1 := by omega
                rw [he]
                exact h)
      have hidx : j + 1 + k = j + (k + 1) := by omega
      rw [hidx] at hrec
      exact hrec

theorem append_seed_chunk (tr : Trace) (base : RtTrace) (fs : FuncSem) (verbose : Bool)
    (c : ℕ) (hsr : 0 < tr.stats.sampling_rate) (hc : 1 ≤ c)
    (hbase : base.have_appended_data = false) (hproc : base.processing = [])
    (hn : 0 < tr.data.length) :
    (∃ tt, (base.append (traceSlice tr tr.stats.starttime
        (tr.stats.starttime + tr.dt * ((c : ℚ) - 1))) true verbose fs).result = .ok tt) ∧
    (base.append (traceSlice tr tr.stats.starttime
        (tr.stats.starttime + tr.dt * ((c : ℚ) - 1))) true verbose fs).self =
      bufAfter tr base c := by
  rw [traceSlice_chunk_zero tr c hsr hc hn]
  rw [append_unseeded_general base _ true verbose fs hbase hproc]
  refine ⟨⟨_, rfl⟩, ?_⟩
  have hd : (coerceF4 { tr with data := tr.data.take c }).dtype = (coerceF4 tr).dtype :=
    coerceF4_dtype_congr _ tr rfl
  have hs : (coerceF4 { tr with data := tr.data.take c }).stats =
      ({ tr with data := tr.data.take c } : Trace).stats := coerceF4_stats _
  have hda : (coerceF4 { tr with data := tr.data.take c }).data =
      ({ tr with data := tr.data.take c } : Trace).data := coerceF4_data _
  rw [hd, hs, hda]
  rfl

theorem splitParts_last_bound (tr : Trace) (num c : ℕ) (pl : ℤ)
    (hsr : 0 < tr.stats.sampling_rate)
    (hnum : 1 ≤ num) (hc : 1 ≤ c) (hpl : pl = (c : ℤ) - 1)
    (hne : ∀ p ∈ splitLoop tr pl num tr.stats.starttime, p.data ≠ []) :
    (num - 1) * c < tr.data.length := by
  by_contra hcon
  push_neg at hcon
  have hmem := splitLoop_mem tr pl num tr.stats.starttime (num - 1) (by omega)
  apply hne _ hmem
  apply traceSlice_data_empty
  have hdt : tr.dt * tr.stats.sampling_rate = 1 := by
    unfold Trace.dt
    field_simp
  have hplq : ((pl : ℤ) : ℚ) + 1 = (c : ℚ) := by
    rw [hpl]
    push_cast
    ring
  have ht1 : (tr.stats.starttime + ((num - 1 : ℕ) : ℚ) * (tr.dt * (((pl : ℤ) : ℚ) + 1))
      - tr.stats.starttime) * tr.stats.sampling_rate = (((num - 1) * c : ℕ) : ℚ) := by
    rw [add_sub_cancel_left, hplq, Nat.cast_mul]
    calc ((num - 1 : ℕ) : ℚ) * (tr.dt * (c : ℚ)) * tr.stats.sampling_rate
        = ((num - 1 : ℕ) : ℚ) * (c : ℚ) * (tr.dt * tr.stats.sampling_rate) := by ring
      _ = ((num - 1 : ℕ) : ℚ) * (c : ℚ) := by rw [hdt, mul_one]
  rw [ht1, round_natCast, max_eq_right (Int.natCast_nonneg _), Int.toNat_natCast]
  exact hcon

theorem appendAll_splitLoop (tr : Trace) (base : RtTrace) (fs : FuncSem) (verbose : Bool)
    (num c : ℕ)
    (hsr : 0 < tr.stats.sampling_rate) (hnum : 1 ≤ num) (hc : 1 ≤ c)
    (hbase : base.have_appended_data = false) (hproc : base.processing = [])
    (hml : base.max_length = none)
    (hn : 0 < tr.data.length)
    (hlast : (num - 1) * c < tr.data.length)
    (hcov : tr.data.length ≤ num * c) :
    appendAll fs true verbose base (splitLoop tr ((c : ℤ) - 1) num tr.stats.starttime) =
      .ok (bufAfter tr base (num * c)) ∧
    (bufAfter tr base (num * c)).data = tr.data := by
  obtain ⟨k, hk⟩ : ∃ k, num = k + 1 := ⟨num - 1, by omega⟩
  subst hk
  constructor
  · rw [splitLoop_succ]
    have hcast : tr.dt * ((((c : ℤ) - 1) : ℤ) : ℚ) = tr.dt * ((c : ℚ) - 1) := by
      push_cast
      ring
    rw [hcast]
    obtain ⟨⟨tt, hok⟩, hsf⟩ := append_seed_chunk tr base fs verbose c hsr hc hbase hproc hn
    simp only [appendAll]
    rw [hok]
    dsimp only
    rw [hsf]
    have htime : tr.stats.starttime + tr.dt * ((c : ℚ) - 1) + tr.dt =
        tr.stats.starttime + ((1 * c : ℕ) : ℚ) * tr.dt := by
      push_cast
      ring
    rw [htime]
    have hbuf : bufAfter tr base c = bufAfter tr base (1 * c) := by rw [one_mul]
    rw [hbuf]
    have hkc : k * c < tr.data.length := by simpa using hlast
    have hrec := appendAll_chunks tr base fs verbose c hsr hc hproc hml k 1 (by omega)
      (by rcases Nat.eq_zero_or_pos k with h0 | h0
          · exact Or.inl h0
          · refine Or.inr ?_
            have he : 1 + k - 1 = k := by omega
            rw [he]
            exact hkc)
    have hidx : 1 + k = k + 1 := by omega
    rw [hidx] at hrec
    exact hrec
  · show tr.data.take ((k + 1) * c) = tr.data
    exact List.take_of_length_le hcov

/-- C7: whenever `_splitTrace` yields `num` non-empty parts of a series,
appending those parts in order into a fresh accumulator (strict continuity
on, no transforms registered, no retention bound) raises no error and leaves
the buffer with exactly the original series' samples (and header). -/
theorem C7_split_append_roundtrip
    (tr : Trace) (num : ℕ) (fs : FuncSem) (verbose : Bool) (base : RtTrace)
    (hsr : 0 < tr.stats.sampling_rate)
    (hnum : 1 ≤ num)
    (hbase : base.have_appended_data = false)
    (hproc : base.processing = [])
    (hml : base.max_length = none)
    (hne : ∀ p ∈ splitTrace tr num, p.data ≠ []) :
    ∃ final : RtTrace,
      appendAll fs true verbose base (splitTrace tr num) = .ok final ∧
      final.data = tr.data ∧ final.stats = tr.stats := by
  obtain ⟨q, hq⟩ : ∃ q, tr.data.length / num = q := ⟨_, rfl⟩
  have h1 := Nat.div_add_mod tr.data.length num
  rw [hq] at h1
  by_cases hrest : tr.data.length % num = 0
  · -- `num` divides the length exactly: chunk size is `q`
    rcases Nat.eq_zero_or_pos q with hq0 | hq1
    · -- then the series is empty and every part is empty: contradiction
      exfalso
      rw [hq0, Nat.mul_zero, Nat.zero_add] at h1
      rw [hrest] at h1
      have hlen0 : tr.data.length = 0 := h1.symm
      have hdat : tr.data = [] := List.length_eq_zero.mp hlen0
      obtain ⟨k, hk⟩ : ∃ k, num = k + 1 := ⟨num - 1, by omega⟩
      have hmem : ∃ p ∈ splitTrace tr num, p.data = [] := by
        simp only [splitTrace]
        rw [if_neg (not_not_intro hrest), hk, splitLoop_succ]
        exact ⟨_, List.mem_cons_self _ _, by simp [traceSlice, hdat]⟩
      obtain ⟨p, hpmem, hpdat⟩ := hmem
      exact hne p hpmem hpdat
    · have hsplit : splitTrace tr num =
          splitLoop tr ((q : ℤ) - 1) num tr.stats.starttime := by
        simp only [splitTrace]
        rw [if_neg (not_not_intro hrest), hq]
      have heq : num * q = tr.data.length := by
        rw [hrest, Nat.add_zero] at h1
        exact h1
      have hn : 0 < tr.data.length := heq ▸ Nat.mul_pos (by omega) hq1
      have hlast : (num - 1) * q < tr.data.length :=
        splitParts_last_bound tr num q ((q : ℤ) - 1) hsr hnum hq1 rfl (hsplit ▸ hne)
      have hmain := appendAll_splitLoop tr base fs verbose num q hsr hnum hq1
        hbase hproc hml hn hlast heq.ge
      refine ⟨bufAfter tr base (num * q), ?_, hmain.2, rfl⟩
      rw [hsplit]
      exact hmain.1
  · -- a remainder exists: chunk size is `q + 1`
    have hmod := Nat.mod_lt tr.data.length (show 0 < num by omega)
    have hsplit : splitTrace tr num =
        splitLoop tr (((q + 1 : ℕ) : ℤ) - 1) num tr.stats.starttime := by
      simp only [splitTrace]
      rw [if_pos hrest, hq]
      congr 1
      push_cast
      ring
    have hc : 1 ≤ q + 1 := by omega
    have hn : 0 < tr.data.length := by
      rcases Nat.eq_zero_or_pos tr.data.length with h0 | h0
      · rw [h0, Nat.zero_mod] at hrest
        exact absurd rfl hrest
      · exact h0
    have hcov : tr.data.length < num * (q + 1) := by
      calc tr.data.length = num * q + tr.data.length % num := h1.symm
        _ < num * q + num := Nat.add_lt_add_left hmod _
        _ = num * (q + 1) := by ring
    have hlast : (num - 1) * (q + 1) < tr.data.length :=
      splitParts_last_bound tr num (q + 1) (((q + 1 : ℕ) : ℤ) - 1) hsr hnum hc rfl
        (hsplit ▸ hne)
    have hmain := appendAll_splitLoop tr base fs verbose num (q + 1) hsr hnum hc
      hbase hproc hml hn hlast (le_of_lt hcov)
    refine ⟨bufAfter tr base (num * (q + 1)), ?_, hmain.2, rfl⟩
    rw [hsplit]
    exact hmain.1

/-- A 7-sample, 1 Hz series used by the C7 witness. -/
def wSrcTrace : Trace := ⟨⟨"BW.RJOB..EHZ", 1, 1, 0⟩, DType.float64, [1, 2, 3, 4, 5, 6, 7]⟩

/-- Witness for C7: splitting a concrete 7-sample series into 3 non-empty
parts (of 3, 3 and 1 samples) and re-appending them in order into a fresh
accumulator reproduces the series exactly. -/
theorem C7_split_append_roundtrip_witness :
    (0 : ℚ) < wSrcTrace.stats.sampling_rate ∧ (1 : ℕ) ≤ 3 ∧
    wFresh.have_appended_data = false ∧ wFresh.processing = [] ∧
    wFresh.max_length = none ∧
    (∀ p ∈ splitTrace wSrcTrace 3, p.data ≠ []) ∧
    ∃ final : RtTrace,
      appendAll fsIdentity true false wFresh (splitTrace wSrcTrace 3) = .ok final ∧
      final.data = wSrcTrace.data ∧ final.stats = wSrcTrace.stats := by
  have hsr : (0 : ℚ) < wSrcTrace.stats.sampling_rate := by norm_num [wSrcTrace]
  have hne : ∀ p ∈ splitTrace wSrcTrace 3, p.data ≠ [] := by
    have h : (splitTrace wSrcTrace 3).map (fun t => t.data) =
        [[1, 2, 3], [4, 5, 6], [7]] := by
      norm_num [splitTrace, splitLoop, traceSlice, wSrcTrace, Trace.dt]
      decide
    intro p hp hemp
    have hm : p.data ∈ (splitTrace wSrcTrace 3).map (fun t => t.data) :=
      List.mem_map_of_mem _ hp
    rw [h, hemp] at hm
    simp at hm
  exact ⟨hsr, by decide, rfl, rfl, rfl, hne,
    C7_split_append_roundtrip wSrcTrace 3 fsIdentity false wFresh hsr (by decide)
      rfl rfl rfl hne⟩
